import Mathlib

/-!
Shallow embedding of the conversational meal-planning backend:
`src/backend/utils/chat_manager.py` (conversation state machine and free-text
slot extractor), `src/backend/utils/meal_planner.py` (plan validator and the
deterministic fallback planner), and the plan-attachment effect of the
`/api/chat` endpoint in `src/backend/app.py`.

Modelling conventions:
* Python strings are `List Char` (ASCII texts; `.lower()`, `.strip()`,
  `.split()` and the regex character classes are modelled for ASCII).
* Python floats are exact rationals `ℚ`.  The money amounts captured by the
  regexes (`\d+(?:\.\d{2})?`) are stored as integer cents (`PyNum`), whose
  rational value `PyNum.toRat` is what the Python code stores as a float;
  with at most two decimal digits this is exact up to the float rounding of
  the literal, which never crosses the integer comparison bounds used here.
* Python dicts holding optional user data are structures with `Option`
  fields; a dict key that is always (re)assigned is a plain field.
* Each regex from the source is hand-compiled to an explicit scanner with
  Python `re` semantics: the scan tries successive start positions, the
  first (leftmost) match wins, `findall(...)[0]` is the leftmost match's
  capture, greedy pieces take maximal runs and lazy pieces minimal ones,
  with backtracking written out wherever it can actually change the result
  (a comment at each scanner records why remaining backtracking is vacuous).
* The embedding models the no-API-key ("test mode") configuration, which the
  repository supports as a first-class mode: the LLM-generated free text of
  replies is not modelled, only the state, slot and flag effects.
-/

namespace Nutrition

/-- `s.data` of a string literal: our texts are lists of characters. -/
def strL (s : String) : List Char := s.data

/-- Regex `\d` on ASCII text (Python `str.isdigit` for ASCII). -/
def isDig (c : Char) : Bool := '0' ≤ c && c ≤ '9'

/-- Regex `\s` for Python: space, tab, newline, carriage return, vertical
tab, form feed. -/
def isWs (c : Char) : Bool :=
  c == ' ' || c == '\t' || c == '\n' || c == '\r' || c == '\x0b' || c == '\x0c'

/-- Python `[A-Z]` / `str.isupper` for ASCII characters. -/
def isUp (c : Char) : Bool := 'A' ≤ c && c ≤ 'Z'

/-- Python `[a-z]` for ASCII characters. -/
def isLo (c : Char) : Bool := 'a' ≤ c && c ≤ 'z'

/-- Python `str.lower()` on ASCII text. -/
def lowerL (cs : List Char) : List Char := cs.map Char.toLower

/-- `pat` is a prefix of `cs` (the anchored step of a regex literal). -/
def pre : List Char → List Char → Bool
  | [], _ => true
  | _ :: _, [] => false
  | p :: ps, c :: cs => p == c && pre ps cs

/-- Python substring containment `pat in cs`. -/
def hasSub (pat : List Char) : List Char → Bool
  | [] => pat.isEmpty
  | c :: cs => pre pat (c :: cs) || hasSub pat cs

/-- Python `str.strip()` (trim ASCII whitespace at both ends). -/
def trimL (cs : List Char) : List Char :=
  ((cs.dropWhile isWs).reverse.dropWhile isWs).reverse

/-- Numeric value of one ASCII digit character. -/
def digVal (c : Char) : Nat := c.toNat - 48

/-- Python `int(s)` for a nonempty ASCII digit string. -/
def digitsVal (cs : List Char) : Nat := cs.foldl (fun a c => a * 10 + digVal c) 0

/-- The first `some` produced by `f` along `l` (regex alternation /
backtracking choice points, in preference order). -/
def firstSome (l : List α) (f : α → Option β) : Option β :=
  l.foldl (fun acc a => match acc with | some b => some b | none => f a) none

/-- Generic leftmost-match regex scan: try the pattern matcher `f` at every
start position (every suffix), leftmost success wins; `re.search` /
`re.findall(...)[0]`. -/
def scanL (f : List Char → Option α) : List Char → Option α
  | [] => f []
  | c :: cs =>
    match f (c :: cs) with
    | some v => some v
    | none => scanL f cs

/-- Lazy `.*?` step: try the continuation `g` here first, else consume one
non-newline character and move right (`.` does not match `\n`). -/
def lazyFind (g : List Char → Option α) : List Char → Option α
  | [] => g []
  | c :: cs =>
    match g (c :: cs) with
    | some v => some v
    | none => if c == '\n' then none else lazyFind g cs

/-- A number captured by `\d+(?:\.\d{2})?`, kept as exact integer cents; the
Python code stores `float(match.group(1))`, i.e. the value `toRat`. -/
structure PyNum where
  cents : Nat
deriving DecidableEq

def PyNum.toRat (v : PyNum) : ℚ := mkRat v.cents 100

/-- Capture `(\d+(?:\.\d{2})?)` at the current position: a maximal digit run,
then optionally a dot with exactly two digits.  Greedy with no residual
backtracking: whatever follows the capture in the budget patterns is either
nullable or starts with a letter, so shrinking the digit run (the next
character would be a digit) or dropping a matched `.dd` (the next character
would be `.`) can never make the rest of the pattern match. -/
def numCapture (cs : List Char) : Option (PyNum × List Char) :=
  let ds := cs.takeWhile isDig
  let rest := cs.dropWhile isDig
  if ds.isEmpty then none
  else
    match rest with
    | '.' :: a :: b :: r =>
      if isDig a && isDig b then
        some (⟨digitsVal ds * 100 + digVal a * 10 + digVal b⟩, r)
      else some (⟨digitsVal ds * 100⟩, rest)
    | _ => some (⟨digitsVal ds * 100⟩, rest)

/-! ### Slot data (`user_data` dict of chat_manager.py) -/

structure UserData where
  people : Option Nat := none
  budget : Option ℚ := none
  location : Option (List Char) := none
  dietary_restrictions : Option (List (List Char)) := none
  preferences : Option (List Char) := none
deriving DecidableEq

/-- Python truthiness of `d.get('people')` (0 and missing are falsy). -/
def truthyN : Option Nat → Bool
  | none => false
  | some n => n != 0

/-- Python truthiness of `d.get('budget')`. -/
def truthyQ : Option ℚ → Bool
  | none => false
  | some q => q != 0

/-- Python truthiness of an optional string. -/
def truthyS : Option (List Char) → Bool
  | none => false
  | some s => !s.isEmpty

/-- Python truthiness of an optional list. -/
def truthyList : Option (List (List Char)) → Bool
  | none => false
  | some l => !l.isEmpty

/-! ### Household size extraction (chat_manager.py lines 165-178)

`people_patterns`, tried in order; for each, if it has a match the first
match's capture is converted with `int`, and accepted (with `break`) only if
in `[1, 20]`; otherwise the next pattern is tried. -/

/-- Pattern step `(\d+)\s*(?:kw1|kw2|...)` at one position: maximal digit
run, maximal whitespace, then an alternation of literal keywords.  `\s*` and
`\d+` need no backtracking: the keywords begin with letters, which are
neither digits nor whitespace. -/
def tryNumKwAt (kws : List (List Char)) (cs : List Char) : Option Nat :=
  let ds := cs.takeWhile isDig
  if ds.isEmpty then none
  else
    let rest2 := (cs.dropWhile isDig).dropWhile isWs
    if kws.any (fun k => pre k rest2) then some (digitsVal ds) else none

def peopleKw1 : List (List Char) :=
  [strL "people", strL "person", strL "persons", strL "household", strL "members"]

def peopleKw3 : List (List Char) := [strL "people", strL "person"]

/-- `r'(\d+)\s*(?:people|person|persons|household|members)'`, first match. -/
def scanPeople1 : List Char → Option Nat := scanL (tryNumKwAt peopleKw1)

/-- `r'(\d+)\s*(?:people|person)'`, first match. -/
def scanPeople3 : List Char → Option Nat := scanL (tryNumKwAt peopleKw3)

def peopleKw2 : List (List Char) :=
  [strL "household", strL "family", strL "feeding", strL "serving"]

/-- After `.*?`, the `(\d+)` group: first digit run to the right with no
intervening newline, captured greedily. -/
def lazyDigits : List Char → Option Nat
  | [] => none
  | c :: cs =>
    if isDig c then some (digitsVal ((c :: cs).takeWhile isDig))
    else if c == '\n' then none
    else lazyDigits cs

/-- `r'(?:household|family|feeding|serving).*?(\d+)'` at one position.  The
four keywords pairwise disagree within their first two characters, so at a
given position at most one alternative can match and alternation order is
immaterial. -/
def tryPeople2At (cs : List Char) : Option Nat :=
  match peopleKw2.find? (fun k => pre k cs) with
  | some k => lazyDigits (cs.drop k.length)
  | none => none

def scanPeople2 : List Char → Option Nat := scanL tryPeople2At

/-- The `people_patterns` loop: each pattern's first match is tested against
`1 <= num <= 20`; on success the value is stored and the loop breaks, on an
out-of-range match the loop simply continues with the next pattern. -/
def peopleTier3 (lower : List Char) (d : UserData) : UserData :=
  match scanPeople3 lower with
  | some n => if 1 ≤ n ∧ n ≤ 20 then { d with people := some n } else d
  | none => d

def peopleTier2 (lower : List Char) (d : UserData) : UserData :=
  match scanPeople2 lower with
  | some n => if 1 ≤ n ∧ n ≤ 20 then { d with people := some n } else peopleTier3 lower d
  | none => peopleTier3 lower d

def extract_people (lower : List Char) (d : UserData) : UserData :=
  match scanPeople1 lower with
  | some n => if 1 ≤ n ∧ n ≤ 20 then { d with people := some n } else peopleTier2 lower d
  | none => peopleTier2 lower d

/-! ### Budget extraction (chat_manager.py lines 180-227)

Four tiers; each later tier runs only if `budget_found` is still false,
i.e. only if no earlier tier produced an in-range value.  A tier that
matches with an out-of-range value does not set `budget_found`. -/

/-- In-range test `10 <= budget_value <= 10000` on the captured float. -/
def budgetInRange (v : PyNum) : Bool := 10 ≤ v.toRat && v.toRat ≤ 10000

/-- `\$?\s*(\d+(?:\.\d{2})?)` at one position.  If the head is `$` the
optional `\$?` consumes it greedily; on failure it backtracks to the empty
alternative (which then also fails, since `$` is neither whitespace nor a
digit, but the fallback is written out faithfully). -/
def b1NoDollar (t : List Char) : Option PyNum :=
  (numCapture (t.dropWhile isWs)).map (fun p => p.1)

def b1NumAt (cs : List Char) : Option PyNum :=
  match cs with
  | '$' :: rest =>
    match b1NoDollar rest with
    | some v => some v
    | none => b1NoDollar cs
  | _ => b1NoDollar cs

/-- Pattern 1, `r'budget.*?\$?\s*(\d+(?:\.\d{2})?)\s*(?:cad|usd|dollar|dollars|per week|weekly|a week)?'`:
leftmost `budget` literal from which the lazy tail reaches a number; the
trailing `\s*(?:...)?` is nullable and cannot affect success or the capture. -/
def tryBudget1At (cs : List Char) : Option PyNum :=
  if pre (strL "budget") cs then lazyFind b1NumAt (cs.drop 6) else none

def scanBudget1 : List Char → Option PyNum := scanL tryBudget1At

def budgetKw2 : List (List Char) := [strL "budget", strL "spend", strL "afford"]

/-- `\$(\d+(?:\.\d{2})?)` at one position (pattern 2's tail: the digits
must directly follow the dollar sign). -/
def dollarNumAt (cs : List Char) : Option PyNum :=
  match cs with
  | '$' :: rest => (numCapture rest).map (fun p => p.1)
  | _ => none

/-- Pattern 2, `r'(?:budget|spend|afford).*?\$(\d+(?:\.\d{2})?)'`.  The three
keywords have pairwise distinct first characters, so at most one alternative
matches at a position. -/
def tryBudget2At (cs : List Char) : Option PyNum :=
  match budgetKw2.find? (fun k => pre k cs) with
  | some k => lazyFind dollarNumAt (cs.drop k.length)
  | none => none

def scanBudget2 : List Char → Option PyNum := scanL tryBudget2At

/-- The optional suffix alternation of pattern 3,
`(?:cad|usd|per week|weekly|a week|budget)?`: the alternatives are tried in
order, the first literal that matches is consumed, otherwise the group
matches empty.  Returns the number of characters consumed. -/
def b3SuffixLen (cs : List Char) : Nat :=
  match ([strL "cad", strL "usd", strL "per week", strL "weekly",
          strL "a week", strL "budget"].find? (fun s => pre s cs)) with
  | some s => s.length
  | none => 0

/-- Pattern 3, `r'\$(\d+(?:\.\d{2})?)\s*(?:cad|usd|per week|weekly|a week|budget)?'`,
leftmost match with its span: returns `(start, value, end)` character
indices.  `\s*` takes the maximal whitespace run (no suffix alternative
starts with whitespace, so it never backtracks). -/
def scanBudget3Aux : List Char → Nat → Option (Nat × PyNum × Nat)
  | [], _ => none
  | '$' :: rest, i =>
    (match numCapture rest with
     | some (v, after) =>
       let numLen := rest.length - after.length
       let wsLen := (after.takeWhile isWs).length
       let sufLen := b3SuffixLen (after.dropWhile isWs)
       some (i, v, i + 1 + numLen + wsLen + sufLen)
     | none => scanBudget3Aux rest (i + 1))
  | _ :: rest, i => scanBudget3Aux rest (i + 1)

def scanBudget3 (cs : List Char) : Option (Nat × PyNum × Nat) := scanBudget3Aux cs 0

def budget_context_words : List (List Char) :=
  [strL "budget", strL "spend", strL "afford", strL "cost", strL "weekly", strL "week"]

/-- `text_lower[max(0, start-20):start] + text_lower[end:end+20]`: the
20-character windows on either side of pattern 3's match, concatenated
(note: concatenated directly, so an occurrence of a context word may
straddle the seam between the two windows). -/
def b3Context (lower : List Char) (s e : Nat) : List Char :=
  (lower.take s).drop (s - 20) ++ (lower.drop e).take 20

/-- Pattern 4's regex `r'(\d+(?:\.\d{2})?)\s*(?:cad|usd|dollar|dollars)'` at
one position: number, maximal whitespace, then a required suffix
alternative.  No backtracking can help: all suffixes start with letters. -/
def tryBudget4At (cs : List Char) : Option PyNum :=
  match numCapture cs with
  | some (v, after) =>
    if [strL "cad", strL "usd", strL "dollar", strL "dollars"].any
        (fun s => pre s (after.dropWhile isWs)) then some v else none
  | none => none

def scanBudget4 : List Char → Option PyNum := scanL tryBudget4At

/-- The four budget tiers of `_extract_user_data`. -/
def budgetTier4 (lower : List Char) (d : UserData) : UserData :=
  if hasSub (strL "budget") lower then
    match scanBudget4 lower with
    | some v => if budgetInRange v then { d with budget := some v.toRat } else d
    | none => d
  else d

def budgetTier3 (lower : List Char) (d : UserData) : UserData :=
  match scanBudget3 lower with
  | some (s, v, e) =>
    if budget_context_words.any (fun w => hasSub w (b3Context lower s e)) then
      if budgetInRange v then { d with budget := some v.toRat } else budgetTier4 lower d
    else budgetTier4 lower d
  | none => budgetTier4 lower d

def budgetTier2 (lower : List Char) (d : UserData) : UserData :=
  match scanBudget2 lower with
  | some v => if budgetInRange v then { d with budget := some v.toRat } else budgetTier3 lower d
  | none => budgetTier3 lower d

def extract_budget (lower : List Char) (d : UserData) : UserData :=
  match scanBudget1 lower with
  | some v => if budgetInRange v then { d with budget := some v.toRat } else budgetTier2 lower d
  | none => budgetTier2 lower d

/-! ### Location extraction (chat_manager.py lines 229-252), on the
original-case text. -/

/-- One title-case word `[A-Z][a-z]+`, maximal: an upper-case letter
followed by the maximal nonempty lower-case run. -/
def titleWordMax : List Char → Option (List Char × List Char)
  | [] => none
  | c :: rest =>
    if isUp c then
      let los := rest.takeWhile isLo
      if los.isEmpty then none else some (c :: los, rest.dropWhile isLo)
    else none

/-- Greedy `(?:\s+[A-Z][a-z]+)*` with nothing after it (pattern 1's capture
ends the regex there, so maximal munch with no backtracking is exact).
Returns the matched extension (whitespace included, as captured).  Fuel is
the remaining text length; every iteration consumes at least two
characters, so the fuel never runs out. -/
def titleExtMax (fuel : Nat) (cs : List Char) : List Char × List Char :=
  match fuel with
  | 0 => ([], cs)
  | fuel + 1 =>
    let ws := cs.takeWhile isWs
    if ws.isEmpty then ([], cs)
    else
      match titleWordMax (cs.dropWhile isWs) with
      | some (w, rest) =>
        let (more, rest2) := titleExtMax fuel rest
        (ws ++ w ++ more, rest2)
      | none => ([], cs)

/-- The capture `([A-Z][a-z]+(?:\s+[A-Z][a-z]+)*)` with nothing after it. -/
def captureTitleSeq (cs : List Char) : Option (List Char) :=
  match titleWordMax cs with
  | some (w, rest) => some (w ++ (titleExtMax rest.length rest).1)
  | none => none

/-- The keyword alternation `(?:in|at|location:?|shopping in)`: the four
alternatives have pairwise distinct first characters, so at most one can
match at a given position; `location:?` greedily takes the colon (if its
continuation then failed, the backtracked empty colon would sit before a
non-whitespace `:` and the mandatory `\s+` would fail anyway). -/
def locKw1Len (cs : List Char) : Option Nat :=
  if pre (strL "in") cs then some 2
  else if pre (strL "at") cs then some 2
  else if pre (strL "location") cs then
    some (if pre (strL "location:") cs then 9 else 8)
  else if pre (strL "shopping in") cs then some 11
  else none

/-- Location pattern 1,
`r'(?:in|at|location:?|shopping in)\s+([A-Z][a-z]+(?:\s+[A-Z][a-z]+)*)'`,
at one position: keyword, mandatory whitespace (maximal; the capture starts
with `[A-Z]`, never whitespace, so no backtracking), then the capture. -/
def tryLoc1At (cs : List Char) : Option (List Char) :=
  match locKw1Len cs with
  | some k =>
    let rest := cs.drop k
    if (rest.takeWhile isWs).isEmpty then none
    else captureTitleSeq (rest.dropWhile isWs)
  | none => none

def scanLoc1 : List Char → Option (List Char) := scanL tryLoc1At

/-- Nonempty prefixes of the maximal `[a-z]` run at the head of `cs`,
longest first, each with the remaining text — the backtracking choice
points of one `[a-z]+`. -/
def loPrefixOpts (cs : List Char) : List (List Char × List Char) :=
  let run := cs.takeWhile isLo
  let rest := cs.dropWhile isLo
  (List.range run.length).map
    (fun j => (run.take (run.length - j), run.drop (run.length - j) ++ rest))

/-- `\s*(?:city|area)` at the current position (pattern 2's mandatory tail;
`\s*` is maximal since neither literal starts with whitespace). -/
def loc2Tail (cs : List Char) : Bool :=
  let rest := cs.dropWhile isWs
  pre (strL "city") rest || pre (strL "area") rest

/-- The starred part of location pattern 2 with full backtracking: greedily
try to extend with one more `\s+[A-Z][a-z]+` repetition (longest lower-case
run first), otherwise close with `\s*(?:city|area)`.  Returns the captured
extension.  Fuel bounds the recursion; `length cs` suffices since each
repetition consumes characters. -/
def loc2Star (fuel : Nat) (cs : List Char) : Option (List Char) :=
  match fuel with
  | 0 => none
  | fuel + 1 =>
    let viaRep : Option (List Char) :=
      let ws := cs.takeWhile isWs
      if ws.isEmpty then none
      else
        match cs.dropWhile isWs with
        | c :: rest =>
          if isUp c then
            firstSome (loPrefixOpts rest)
              (fun p => (loc2Star fuel p.2).map (fun ext => ws ++ c :: p.1 ++ ext))
          else none
        | [] => none
    match viaRep with
    | some ext => some ext
    | none => if loc2Tail cs then some [] else none

/-- Location pattern 2,
`r'([A-Z][a-z]+(?:\s+[A-Z][a-z]+)*)\s*(?:city|area)'`, at one position,
with backtracking in the lower-case runs and the star. -/
def tryLoc2At (cs : List Char) : Option (List Char) :=
  match cs with
  | c :: rest =>
    if isUp c then
      firstSome (loPrefixOpts rest)
        (fun p => (loc2Star p.2.length p.2).map (fun ext => c :: p.1 ++ ext))
    else none
  | [] => none

def scanLoc2 : List Char → Option (List Char) := scanL tryLoc2At

/-- Words rejected by the pattern loop: `['the','and','or','for','with']`. -/
def locStop1 : List (List Char) :=
  [strL "the", strL "and", strL "or", strL "for", strL "with"]

/-- Words rejected by the capitalized-word fallback:
`['i','the','and','or','for','with','no','none']`. -/
def locStop2 : List (List Char) :=
  [strL "i", strL "the", strL "and", strL "or", strL "for", strL "with",
   strL "no", strL "none"]

/-- Python `str.split()`: split on whitespace runs, no empty words.  Fuel is
the text length (each word consumes at least one character). -/
def splitWsFuel (fuel : Nat) (cs : List Char) : List (List Char) :=
  match fuel with
  | 0 => []
  | fuel + 1 =>
    let cs2 := cs.dropWhile isWs
    match cs2.takeWhile (fun c => !isWs c) with
    | [] => []
    | w => w :: splitWsFuel fuel (cs2.dropWhile (fun c => !isWs c))

def splitWs (cs : List Char) : List (List Char) := splitWsFuel cs.length cs

/-- The capitalized-word fallback (lines 245-252): the first word, except
the first of the message, that starts with an upper-case letter, has length
greater than 2, and is not a stop word. -/
def capitalWordFallback (words : List (List Char)) (i : Nat) : Option (List Char) :=
  match words with
  | [] => none
  | w :: rest =>
    if isUp (w.headD ' ') && w.length > 2 &&
        (i > 0 && !locStop2.contains (lowerL w)) then some w
    else capitalWordFallback rest (i + 1)

/-- The location section of `_extract_user_data`: the two regex patterns in
order (a match whose stripped capture is a stop word does not set the slot
but also does not stop the pattern loop), then the capitalized-word
fallback, which runs only when the location slot is still falsy. -/
def locationPatterns (text : List Char) (d : UserData) : UserData :=
  match scanLoc1 text with
  | some m =>
    if !locStop1.contains (lowerL (trimL m)) then { d with location := some (trimL m) }
    else
      match scanLoc2 text with
      | some m2 =>
        if !locStop1.contains (lowerL (trimL m2)) then { d with location := some (trimL m2) }
        else d
      | none => d
  | none =>
    match scanLoc2 text with
    | some m2 =>
      if !locStop1.contains (lowerL (trimL m2)) then { d with location := some (trimL m2) }
      else d
    | none => d

def extract_location (text : List Char) (d : UserData) : UserData :=
  let afterPatterns := locationPatterns text d
  if truthyS afterPatterns.location then afterPatterns
  else
    match capitalWordFallback (splitWs text) 0 with
    | some w => { afterPatterns with location := some w }
    | none => afterPatterns

/-! ### Dietary restrictions (chat_manager.py lines 254-274) -/

/-- `dietary_keywords`, in dict insertion order. -/
def dietary_keywords : List (List Char × List (List Char)) :=
  [(strL "vegetarian", [strL "vegetarian", strL "veggie"]),
   (strL "vegan", [strL "vegan"]),
   (strL "gluten-free", [strL "gluten-free", strL "gluten free", strL "celiac"]),
   (strL "lactose-intolerant", [strL "lactose", strL "dairy-free", strL "dairy free"]),
   (strL "nut-free", [strL "nut-free", strL "nut free", strL "peanut"]),
   (strL "halal", [strL "halal"]),
   (strL "kosher", [strL "kosher"]),
   (strL "pescatarian", [strL "pescatarian", strL "pescetarian"])]

/-- For each table row whose synonym list has a member contained in the
lowered text, append the tag if not already present; the (possibly default
empty) restriction list is then always written back to the dict. -/
def extract_dietary (lower : List Char) (d : UserData) : UserData :=
  let restrictions := d.dietary_restrictions.getD []
  let r2 := dietary_keywords.foldl
    (fun acc row =>
      if row.2.any (fun k => hasSub k lower) then
        if acc.contains row.1 then acc else acc ++ [row.1]
      else acc)
    restrictions
  { d with dietary_restrictions := some r2 }

/-! ### Food preferences (chat_manager.py lines 276-291) -/

/-- The lazy capture with delimiter `(.+?)(?:\.|,|$)`: the shortest nonempty
run of non-newline characters followed by `.`, `,` or the end of the string
(Python's `$` also matches just before a single trailing newline). -/
def lazyDelimGo (acc : List Char) : List Char → Option (List Char)
  | [] => some acc.reverse
  | c :: rest =>
    if c == '.' || c == ',' then some acc.reverse
    else if c == '\n' then (if rest.isEmpty then some acc.reverse else none)
    else lazyDelimGo (c :: acc) rest

def lazyDelim : List Char → Option (List Char)
  | [] => none
  | c :: rest =>
    if c == '\n' then none else lazyDelimGo [c] rest

/-- Preference keywords of pattern 1; at a given position at most one of
them can match (`like`/`love` split at their second character,
`favorite`/`favourite` at their fifth). -/
def prefKw1 : List (List Char) :=
  [strL "like", strL "love", strL "prefer", strL "favorite", strL "favourite"]

/-- After the keyword, `\s+(.+?)(?:\.|,|$)` with the whitespace
backtracking written out: `\s+` prefers the maximal run, but `.` can match
a space, so on failure the run is shortened down to one character. -/
def prefAfterKw (cs : List Char) : Option (List Char) :=
  let ws := cs.takeWhile isWs
  let rest := cs.dropWhile isWs
  if ws.isEmpty then none
  else
    firstSome (List.range ws.length)
      (fun j => lazyDelim (ws.drop (ws.length - j) ++ rest))

/-- Pattern 1, `r'(?:like|love|prefer|favorite|favourite)\s+(.+?)(?:\.|,|$)'`,
at one position. -/
def tryPref1At (cs : List Char) : Option (List Char) :=
  match prefKw1.find? (fun k => pre k cs) with
  | some k => prefAfterKw (cs.drop k.length)
  | none => none

def scanPref1 : List Char → Option (List Char) := scanL tryPref1At

/-- `\s+over` at the current position (pattern 2's tail; `over` starts with
a letter, so the maximal whitespace run is exact). -/
def pref2Tail (cs : List Char) : Bool :=
  !(cs.takeWhile isWs).isEmpty && pre (strL "over") (cs.dropWhile isWs)

/-- The lazy capture of pattern 2: shortest nonempty non-newline run after
which `\s+over` matches. -/
def lazyCapPref2 (acc : List Char) : List Char → Option (List Char)
  | [] => none
  | c :: rest =>
    if c == '\n' then none
    else if pref2Tail rest then some (c :: acc).reverse
    else lazyCapPref2 (c :: acc) rest

/-- After `prefer`, `\s+(.+?)\s+over` with the leading-whitespace
backtracking written out (as in pattern 1, `.` can match a space). -/
def pref2AfterKw (cs : List Char) : Option (List Char) :=
  let ws := cs.takeWhile isWs
  let rest := cs.dropWhile isWs
  if ws.isEmpty then none
  else
    firstSome (List.range ws.length)
      (fun j => lazyCapPref2 [] (ws.drop (ws.length - j) ++ rest))

/-- Pattern 2, `r'prefer\s+(.+?)\s+over'`, at one position. -/
def tryPref2At (cs : List Char) : Option (List Char) :=
  if pre (strL "prefer") cs then pref2AfterKw (cs.drop 6) else none

def scanPref2 : List Char → Option (List Char) := scanL tryPref2At

/-- The preference section: both patterns are tried (no break); each
pattern with a match appends `' ' + matches[0]` to the running preference
string; the stripped result is stored if nonempty, otherwise a bare
preference keyword in the text stores the whole original message as a
fallback when no preference value is already present. -/
def prefsAccum (lower : List Char) (d : UserData) : List Char :=
  let prefs0 := d.preferences.getD []
  let prefs1 :=
    match scanPref1 lower with
    | some m => prefs0 ++ ' ' :: m
    | none => prefs0
  match scanPref2 lower with
  | some m => prefs1 ++ ' ' :: m
  | none => prefs1

def extract_preferences (text lower : List Char) (d : UserData) : UserData :=
  let prefs2 := prefsAccum lower d
  if !(trimL prefs2).isEmpty then { d with preferences := some (trimL prefs2) }
  else if hasSub (strL "prefer") lower || hasSub (strL "like") lower ||
      hasSub (strL "favorite") lower then
    if truthyS d.preferences then d else { d with preferences := some text }
  else d

/-- The `"none"/"no"` handling (lines 293-298): on an explicit no-preference
phrasing, set the restriction list and the preference string to empty, but
only where the current value is falsy. -/
def extract_none_handling (lower : List Char) (d : UserData) : UserData :=
  if hasSub (strL "no preferences") lower || hasSub (strL "no dietary") lower ||
      (hasSub (strL "no") lower && hasSub (strL "allergies") lower) then
    let d1 :=
      if truthyList d.dietary_restrictions then d
      else { d with dietary_restrictions := some [] }
    if truthyS d1.preferences then d1 else { d1 with preferences := some [] }
  else d

/-- `_extract_user_data(text, existing_data)`: the five extraction sections
run in source order on a copy of the existing data; all but the location
section read the lowered text. -/
def extract_user_data (text : List Char) (d : UserData) : UserData :=
  let lower := lowerL text
  let d1 := extract_people lower d
  let d2 := extract_budget lower d1
  let d3 := extract_location text d2
  let d4 := extract_dietary lower d3
  let d5 := extract_preferences text lower d4
  extract_none_handling lower d5

/-! ### Conversation state machine (chat_manager.py) -/

/-- The session `state` tags used by the source:
`'welcome' | 'collecting_info' | 'confirm' | 'processing' | 'complete'`. -/
inductive SState
  | welcome
  | collecting_info
  | confirm
  | processing
  | complete
deriving DecidableEq

/-- One conversation's state: the fields of `self.sessions[session_id]`
this development reasons about (the free-text `conversation_history` and
`activity_log` strings and the polling `status` tag carry no verified
property and are omitted). -/
structure Session where
  state : SState := .welcome
  user_data : UserData := {}
  meal_plan_generated : Bool := false
deriving DecidableEq

/-- The slot- and state-relevant part of the `process_message` response
dict (its free-text `message` is not modelled). -/
structure ChatResponse where
  state : SState
  user_data : UserData
  ready_for_meal_plan : Bool := false
  reset : Bool := false
deriving DecidableEq

/-- `_check_missing_fields`: the labels of required fields whose value is
falsy, in the fixed order people, budget, location. -/
def check_missing_fields (d : UserData) : List (List Char) :=
  (if truthyN d.people then [] else [strL "Household size"]) ++
  (if truthyQ d.budget then [] else [strL "Weekly budget"]) ++
  (if truthyS d.location then [] else [strL "Location"])

def greetingWords : List (List Char) :=
  [strL "get started", strL "start", strL "hello", strL "hi", strL "begin"]

def yesWords : List (List Char) :=
  [strL "yes", strL "y", strL "correct", strL "yeah", strL "sure", strL "ok",
   strL "okay", strL "confirmed"]

def noWords : List (List Char) :=
  [strL "no", strL "n", strL "incorrect", strL "wrong", strL "change"]

/-- `process_message(session_id, user_message)` in the no-API-key mode:
returns the updated session and the response record.  Branches as in the
source: a greeting in the welcome state starts collection; the collecting
state extracts slots and either re-prompts (missing fields, or a falsy
budget despite no missing field) or moves to confirmation; the confirm
state matches exact yes/no keyword lists; every other case is the freeform
GPT fallback, which changes neither state nor data. -/
def process_message (s : Session) (msg : List Char) : Session × ChatResponse :=
  let lower := lowerL msg
  if s.state = .welcome ∧ greetingWords.contains lower then
    ({ s with state := .collecting_info },
     { state := .collecting_info, user_data := s.user_data })
  else if s.state = .collecting_info then
    let extracted := extract_user_data msg s.user_data
    let missing := check_missing_fields extracted
    if !missing.isEmpty then
      ({ s with user_data := extracted },
       { state := .collecting_info, user_data := extracted })
    else if !truthyQ extracted.budget then
      ({ s with user_data := extracted },
       { state := .collecting_info, user_data := extracted })
    else
      ({ s with state := .confirm, user_data := extracted },
       { state := .confirm, user_data := extracted })
  else if s.state = .confirm then
    if yesWords.contains lower then
      ({ s with state := .processing },
       { state := .processing, user_data := s.user_data,
         ready_for_meal_plan := true })
    else if noWords.contains lower then
      ({ s with state := .collecting_info, user_data := {} },
       { state := .collecting_info, user_data := {}, reset := true })
    else
      (s, { state := .confirm, user_data := s.user_data })
  else
    (s, { state := s.state, user_data := s.user_data })

/-- `should_generate_meal_plan(session_id)` (chat_manager.py lines 351-359):
the truth value of
`state == 'processing' and budget and people and location and not meal_plan_generated`. -/
def should_generate_meal_plan (s : Session) : Bool :=
  s.state == .processing && truthyQ s.user_data.budget &&
    truthyN s.user_data.people && truthyS s.user_data.location &&
    !s.meal_plan_generated

/-- The plan-attachment effect of the chat endpoint (app.py lines 122-126)
after a successful generation: store the plan, set the generated flag, and
mark the session complete. -/
def attach_meal_plan (s : Session) : Session :=
  { s with meal_plan_generated := true, state := .complete }

/-- Folding a sequence of user messages through `process_message`. -/
def process_messages (s : Session) (msgs : List (List Char)) : Session :=
  msgs.foldl (fun st m => (process_message st m).1) s

/-! ### Meal planner (meal_planner.py) -/

/-- A researched ingredient as consumed by the planner: the `name`, `price`
and `category` keys it reads (with the `.get` defaults folded in). -/
structure Ingredient where
  name : List Char
  price : ℚ
  category : List Char
deriving DecidableEq

/-- A recipe ingredient `{"name": ..., "quantity": ...}`. -/
structure RecipeIngredient where
  name : List Char
  quantity : List Char
deriving DecidableEq

structure Meal where
  name : List Char
  ingredients : List RecipeIngredient
  recipe : List Char
  cooking_time : List Char
  difficulty : List Char
  cost : ℚ
deriving DecidableEq

structure GroceryItem where
  ingredient : List Char
  quantity : List Char
  unit : List Char
  estimated_cost : ℚ
  category : List Char
deriving DecidableEq

/-- One plan day: the `meals` dict as an insertion-ordered association
list from meal type to meal. -/
structure PlanDay where
  day : List Char
  meals : List (List Char × Meal)
deriving DecidableEq

structure WeeklySummary where
  total_cost : ℚ
  serves : Nat
  location : List Char
  budget_utilization : List Char
deriving DecidableEq

structure MealPlan where
  grocery_list : List GroceryItem
  total_grocery_cost : ℚ
  days : List PlanDay
  weekly_summary : WeeklySummary
  cooking_tips : List (List Char)
  storage_advice : List (List Char)
deriving DecidableEq

/-- The keys of the `weekly_summary` dict literal built by
`_create_fallback_meal_plan` (meal_planner.py lines 338-343); the JSON
template of the primary-path prompt (lines 74-79) requests the same four
keys. -/
def weekly_summary_keys : List (List Char) :=
  [strL "total_cost", strL "serves", strL "location", strL "budget_utilization"]

/-- The fuzzy availability test shared by the validator and the fallback
filter: some catalog name and the ingredient name contain one another
(case-insensitively) in either direction. -/
def nameMatches (lowerName : List Char) (available : List (List Char)) : Bool :=
  available.any (fun avail => hasSub avail lowerName || hasSub lowerName avail)

/-- `_validate_meal_plan(meal_plan, ingredients)` (lines 147-172): every
grocery-list entry and then every recipe ingredient of every meal of every
day must fuzzy-match some catalog name; the conjunction short-circuits at
the first unmatched name, and the plan itself is only read. -/
def validate_meal_plan (plan : MealPlan) (ingredients : List Ingredient) : Bool :=
  let available_names := ingredients.map (fun ing => lowerL ing.name)
  plan.grocery_list.all
    (fun item => nameMatches (lowerL item.ingredient) available_names) &&
  plan.days.all (fun day => day.meals.all
    (fun meal => meal.2.ingredients.all
      (fun ing => nameMatches (lowerL ing.name) available_names)))

/-- `breakfast_options` (lines 210-235). -/
def breakfast_options : List Meal :=
  [{ name := strL "Oatmeal with Bananas",
     ingredients := [⟨strL "Oats", strL "1 cup"⟩, ⟨strL "Bananas", strL "2"⟩],
     recipe := strL "Cook oats with water, top with sliced bananas. Add a pinch of salt for flavor.",
     cooking_time := strL "10 minutes", difficulty := strL "easy", cost := 2.50 },
   { name := strL "Scrambled Eggs with Toast",
     ingredients := [⟨strL "Eggs", strL "3"⟩, ⟨strL "Whole Wheat Bread", strL "2 slices"⟩],
     recipe := strL "Scramble eggs in a pan with a little oil. Toast bread. Serve together.",
     cooking_time := strL "15 minutes", difficulty := strL "easy", cost := 3.00 },
   { name := strL "Apple and Oatmeal",
     ingredients := [⟨strL "Oats", strL "1 cup"⟩, ⟨strL "Apples", strL "1"⟩],
     recipe := strL "Cook oats, add diced apples and cinnamon if available.",
     cooking_time := strL "10 minutes", difficulty := strL "easy", cost := 2.75 }]

/-- `lunch_options` (lines 237-262). -/
def lunch_options : List Meal :=
  [{ name := strL "Rice and Beans",
     ingredients := [⟨strL "Brown Rice", strL "1 cup"⟩, ⟨strL "Black Beans", strL "1 can"⟩],
     recipe := strL "Cook rice according to package. Heat beans. Serve together with seasonings.",
     cooking_time := strL "30 minutes", difficulty := strL "easy", cost := 3.75 },
   { name := strL "Turkey Sandwich",
     ingredients := [⟨strL "Ground Turkey", strL "4 oz"⟩, ⟨strL "Whole Wheat Bread", strL "2 slices"⟩],
     recipe := strL "Cook turkey, season, make sandwich with bread.",
     cooking_time := strL "20 minutes", difficulty := strL "easy", cost := 4.50 },
   { name := strL "Vegetable Soup",
     ingredients := [⟨strL "Carrots", strL "1/2 cup"⟩, ⟨strL "Potatoes", strL "1/2 cup"⟩,
                     ⟨strL "Onions", strL "1/4 cup"⟩],
     recipe := strL "Chop vegetables, boil in water with seasonings until tender.",
     cooking_time := strL "25 minutes", difficulty := strL "easy", cost := 2.50 }]

/-- `dinner_options` (lines 264-289). -/
def dinner_options : List Meal :=
  [{ name := strL "Chicken with Vegetables",
     ingredients := [⟨strL "Chicken Breast", strL "6 oz"⟩, ⟨strL "Broccoli", strL "1 cup"⟩,
                     ⟨strL "Carrots", strL "1/2 cup"⟩],
     recipe := strL "Pan-fry chicken until cooked through. Steam vegetables. Serve together.",
     cooking_time := strL "30 minutes", difficulty := strL "medium", cost := 6.00 },
   { name := strL "Turkey with Potatoes",
     ingredients := [⟨strL "Ground Turkey", strL "6 oz"⟩, ⟨strL "Potatoes", strL "1 cup"⟩],
     recipe := strL "Cook turkey, bake or boil potatoes until tender. Season to taste.",
     cooking_time := strL "35 minutes", difficulty := strL "medium", cost := 5.50 },
   { name := strL "Rice Bowl with Vegetables",
     ingredients := [⟨strL "Brown Rice", strL "1 cup"⟩, ⟨strL "Spinach", strL "1 cup"⟩,
                     ⟨strL "Tomatoes", strL "1/2 cup"⟩],
     recipe := strL "Cook rice. Sauté vegetables. Combine in a bowl.",
     cooking_time := strL "25 minutes", difficulty := strL "easy", cost := 4.00 }]

/-- `ingredient_available` (lines 292-297): every listed template
ingredient fuzzy-matches some catalog name. -/
def ingredient_available (available_ingredients : List (List Char))
    (meal_ingredients : List RecipeIngredient) : Bool :=
  meal_ingredients.all (fun ing =>
    available_ingredients.any (fun avail =>
      hasSub (lowerL avail) (lowerL ing.name) || hasSub (lowerL ing.name) (lowerL avail)))

/-- `[m for m in options if ingredient_available(m['ingredients'])] or options`
(lines 299-301): the filtered pool, or the unfiltered pool when filtering
empties it. -/
def filteredPool (options : List Meal) (ings : List Ingredient) : List Meal :=
  if (options.filter (fun m =>
      ingredient_available (ings.map (fun ing => ing.name)) m.ingredients)).isEmpty
  then options
  else options.filter (fun m =>
    ingredient_available (ings.map (fun ing => ing.name)) m.ingredients)

def filtered_breakfast (ings : List Ingredient) : List Meal :=
  filteredPool breakfast_options ings

def filtered_lunch (ings : List Ingredient) : List Meal :=
  filteredPool lunch_options ings

def filtered_dinner (ings : List Ingredient) : List Meal :=
  filteredPool dinner_options ings

def dayNames : List (List Char) :=
  [strL "Monday", strL "Tuesday", strL "Wednesday", strL "Thursday",
   strL "Friday", strL "Saturday", strL "Sunday"]

def dummyMeal : Meal := { name := [], ingredients := [], recipe := [],
                          cooking_time := [], difficulty := [], cost := 0 }

/-- The pre-scaling weekly plan (lines 303-320): day `i` takes element
`i % len(pool)` of each filtered pool (the pools are never empty, so the
default of `getD` is never read). -/
def fallback_weekly_plan (ings : List Ingredient) : List PlanDay :=
  dayNames.enum.map (fun p =>
    { day := p.2,
      meals :=
        [(strL "breakfast",
          (filtered_breakfast ings).getD (p.1 % (filtered_breakfast ings).length) dummyMeal),
         (strL "lunch",
          (filtered_lunch ings).getD (p.1 % (filtered_lunch ings).length) dummyMeal),
         (strL "dinner",
          (filtered_dinner ings).getD (p.1 % (filtered_dinner ings).length) dummyMeal)] })

/-- The running cost total of lines 304-311: the sum of all meal costs of
the (pre-scaling) plan. -/
def planDaysCost (days : List PlanDay) : ℚ :=
  (days.map (fun d => (d.meals.map (fun m => m.2.cost)).sum)).sum

/-- `people = user_data.get('people', 1)`. -/
def fallback_people (u : UserData) : Nat := u.people.getD 1

/-- The effective budget of lines 177-186: the provided budget, or the
estimate `12.0 * people * 7` when that value is missing, zero or
non-positive. -/
def fallback_budget (u : UserData) : ℚ :=
  match u.budget with
  | some b => if b ≤ 0 then 12 * (fallback_people u : ℚ) * 7 else b
  | none => 12 * (fallback_people u : ℚ) * 7

/-- The pre-scaling total of line 323: all 21 meal costs summed, times the
household size. -/
def fallback_raw_total (u : UserData) (ings : List Ingredient) : ℚ :=
  planDaysCost (fallback_weekly_plan ings) * (fallback_people u : ℚ)

/-- The uniform cost multiplier of lines 325-330: `(budget*0.9)/total_cost`
when the raw total exceeds the budget, and 1 otherwise (no rescaling). -/
def fallback_scale (u : UserData) (ings : List Ingredient) : ℚ :=
  if fallback_raw_total u ings > fallback_budget u then
    (fallback_budget u * (9 / 10)) / fallback_raw_total u ings
  else 1

def scaleMeal (f : ℚ) (m : Meal) : Meal := { m with cost := m.cost * f }

def scaleDay (f : ℚ) (d : PlanDay) : PlanDay :=
  { d with meals := d.meals.map (fun p => (p.1, scaleMeal f p.2)) }

/-- Banker's rounding to an integer, as Python's `round`. -/
def pyRound (q : ℚ) : ℤ :=
  if q - ⌊q⌋ < 1 / 2 then ⌊q⌋
  else if q - ⌊q⌋ > 1 / 2 then ⌊q⌋ + 1
  else if ⌊q⌋ % 2 = 0 then ⌊q⌋ else ⌊q⌋ + 1

/-- Python `round(q, 2)`. -/
def round2 (q : ℚ) : ℚ := (pyRound (q * 100) : ℚ) / 100

/-- Digit characters. -/
def digChar : Nat → Char
  | 0 => '0' | 1 => '1' | 2 => '2' | 3 => '3' | 4 => '4'
  | 5 => '5' | 6 => '6' | 7 => '7' | 8 => '8' | _ => '9'

/-- Little-endian decimal digits, by fuel (any fuel at least the digit
count of `n` gives the digits of `n`; `fuel = n` always suffices). -/
def natDigitsAux (fuel : Nat) (n : Nat) : List Nat :=
  match fuel with
  | 0 => []
  | fuel + 1 => if n = 0 then [] else n % 10 :: natDigitsAux fuel (n / 10)

/-- Decimal digit characters of a natural number, most significant first
(`"0"` for zero). -/
def natChars (n : Nat) : List Char :=
  if n = 0 then ['0'] else ((natDigitsAux n n).map digChar).reverse

/-- Python `f"{q:.1f}%"` for the utilization display (negative zero, which
no reachable value produces, is not distinguished). -/
def fmtPercent1 (q : ℚ) : List Char :=
  let m := pyRound (q * 10)
  (if m < 0 then ['-'] else []) ++
    natChars (m.natAbs / 10) ++ '.' :: digChar (m.natAbs % 10) :: ['%']

def cooking_tips_fixed : List (List Char) :=
  [strL "Prep vegetables at the beginning of the week to save time",
   strL "Cook grains in bulk and store for multiple meals",
   strL "Use leftovers creatively for next day's lunch",
   strL "Season simply with salt, pepper, and basic spices",
   strL "Store cooked meals in airtight containers for up to 3 days"]

def storage_advice_fixed : List (List Char) :=
  [strL "Store vegetables in the refrigerator crisper drawer",
   strL "Keep grains and dry goods in sealed containers",
   strL "Freeze meat if not using within 2 days",
   strL "Label and date all meal prep containers"]

/-- `_create_fallback_meal_plan(user_data, ingredients)` (lines 174-357).
The grocery list takes the first 20 catalog entries verbatim; the weekly
plan cycles the filtered pools; when the people-scaled total exceeds the
effective budget every meal cost is multiplied by `(budget*0.9)/total` and
the total becomes `budget*0.9`; the summary reports the rounded total, the
household size, the location and the utilization percentage string.
(The `dietary_restrictions` read at line 179 and the `available_with_prices`
dict of line 190 are never used afterwards and are not modelled.) -/
def create_fallback_meal_plan (u : UserData) (ings : List Ingredient) : MealPlan :=
  let people := fallback_people u
  let budget := fallback_budget u
  let location := u.location.getD (strL "Unknown")
  let grocery_list : List GroceryItem := (ings.take 20).map (fun ing =>
    { ingredient := ing.name, quantity := strL "varies", unit := strL "as needed",
      estimated_cost := ing.price, category := ing.category })
  let total_grocery_cost := (grocery_list.map (fun item => item.estimated_cost)).sum
  let weekly := fallback_weekly_plan ings
  let total0 := planDaysCost weekly * (people : ℚ)
  let scaled : List PlanDay × ℚ :=
    if total0 > budget then
      (weekly.map (scaleDay ((budget * (9 / 10)) / total0)), budget * (9 / 10))
    else (weekly, total0)
  let budget_utilization : ℚ := if budget > 0 then scaled.2 / budget * 100 else 0
  { grocery_list := grocery_list,
    total_grocery_cost := round2 total_grocery_cost,
    days := scaled.1,
    weekly_summary :=
      { total_cost := round2 scaled.2, serves := people, location := location,
        budget_utilization := fmtPercent1 budget_utilization },
    cooking_tips := cooking_tips_fixed,
    storage_advice := storage_advice_fixed }

/-! ## Verification

### Digit-string facts -/

/-- Little-endian digit value, inverse to `natDigitsAux`. -/
def ofDigitsLE (l : List Nat) : Nat := l.foldr (fun d a => d + 10 * a) 0

theorem ofDigitsLE_natDigitsAux :
    ∀ fuel n, n ≤ fuel → ofDigitsLE (natDigitsAux fuel n) = n := by
  intro fuel
  induction fuel with
  | zero => intro n h; interval_cases n; rfl
  | succ fuel ih =>
    intro n h
    by_cases h0 : n = 0
    · subst h0; rfl
    · have hdiv : n / 10 ≤ fuel := by
        have := Nat.div_lt_self (Nat.pos_of_ne_zero h0) (by norm_num : 1 < 10)
        omega
      simp only [natDigitsAux, h0, if_false, ofDigitsLE, List.foldr_cons]
      have := ih (n / 10) hdiv
      simp only [ofDigitsLE] at this
      rw [this]
      omega

theorem natDigitsAux_lt_ten : ∀ fuel n, ∀ k ∈ natDigitsAux fuel n, k < 10 := by
  intro fuel
  induction fuel with
  | zero => intro n k h; simp [natDigitsAux] at h
  | succ fuel ih =>
    intro n k h
    by_cases h0 : n = 0
    · subst h0; simp [natDigitsAux] at h
    · simp only [natDigitsAux, h0, if_false, List.mem_cons] at h
      rcases h with h | h
      · subst h; exact Nat.mod_lt _ (by norm_num)
      · exact ih _ _ h

theorem digVal_digChar (k : Nat) (h : k < 10) : digVal (digChar k) = k := by
  interval_cases k <;> rfl

theorem isDig_digChar (k : Nat) : isDig (digChar k) = true := by
  rcases k with _ | _ | _ | _ | _ | _ | _ | _ | _ | k <;> rfl

theorem toLower_digChar (k : Nat) : Char.toLower (digChar k) = digChar k := by
  rcases k with _ | _ | _ | _ | _ | _ | _ | _ | _ | k <;> rfl

theorem isWs_digChar (k : Nat) : isWs (digChar k) = false := by
  rcases k with _ | _ | _ | _ | _ | _ | _ | _ | _ | k <;> rfl

/-- A character that is not a digit is distinct (as `==`) from every digit
character. -/
theorem beq_digChar_eq_false {x : Char} (h : isDig x = false) (k : Nat) :
    (x == digChar k) = false := by
  by_contra hx
  have hx2 : (x == digChar k) = true := by
    cases h2 : (x == digChar k)
    · exact absurd h2 hx
    · rfl
  have := eq_of_beq hx2
  rw [this, isDig_digChar] at h
  cases h

/-- Every character of `natChars n` is a digit character. -/
theorem natChars_shape : ∀ n, ∀ c ∈ natChars n, ∃ k, c = digChar k := by
  intro n c hc
  unfold natChars at hc
  by_cases h0 : n = 0
  · subst h0; simp at hc; exact ⟨0, hc⟩
  · simp only [h0, if_false, List.mem_reverse, List.mem_map] at hc
    obtain ⟨k, _, rfl⟩ := hc
    exact ⟨k, rfl⟩

theorem natChars_ne_nil (n : Nat) : natChars n ≠ [] := by
  unfold natChars
  by_cases h0 : n = 0
  · subst h0; simp
  · simp only [h0, if_false]
    intro h
    have h2 := congrArg List.length h
    simp only [List.length_reverse, List.length_map, List.length_nil] at h2
    have h3 : natDigitsAux n n = [] := List.eq_nil_of_length_eq_zero h2
    have h4 := ofDigitsLE_natDigitsAux n n le_rfl
    rw [h3] at h4
    exact h0 h4.symm

theorem natChars_isDig : ∀ n, ∀ c ∈ natChars n, isDig c = true := by
  intro n c hc
  obtain ⟨k, rfl⟩ := natChars_shape n c hc
  exact isDig_digChar k

/-- `foldl` step across an appended singleton. -/
theorem digitsVal_append_single (xs : List Char) (c : Char) :
    digitsVal (xs ++ [c]) = digitsVal xs * 10 + digVal c := by
  simp [digitsVal, List.foldl_append]

theorem digitsVal_rev_map (l : List Nat) (h : ∀ k ∈ l, k < 10) :
    digitsVal ((l.map digChar).reverse) = ofDigitsLE l := by
  induction l with
  | nil => rfl
  | cons d t ih =>
    simp only [List.map_cons, List.reverse_cons, digitsVal_append_single]
    rw [ih (fun k hk => h k (List.mem_cons_of_mem _ hk))]
    have hd : d < 10 := h d (List.mem_cons_self d t)
    rw [digVal_digChar d hd]
    simp only [ofDigitsLE, List.foldr_cons]
    omega

/-- `int` applied to the decimal digits of `n` gives back `n`. -/
theorem digitsVal_natChars (n : Nat) : digitsVal (natChars n) = n := by
  unfold natChars
  by_cases h0 : n = 0
  · subst h0; rfl
  · simp only [h0, if_false]
    rw [digitsVal_rev_map _ (natDigitsAux_lt_ten n n)]
    exact ofDigitsLE_natDigitsAux n n le_rfl

/-! ### takeWhile/dropWhile across digit blocks -/

theorem takeWhile_all {p : Char → Bool} :
    ∀ {ds : List Char}, (∀ c ∈ ds, p c = true) → ds.takeWhile p = ds := by
  intro ds
  induction ds with
  | nil => intro _; rfl
  | cons c t ih =>
    intro h
    simp only [List.takeWhile_cons, h c (List.mem_cons_self c t), if_true]
    rw [ih (fun x hx => h x (List.mem_cons_of_mem _ hx))]

theorem dropWhile_all {p : Char → Bool} :
    ∀ {ds : List Char}, (∀ c ∈ ds, p c = true) → ds.dropWhile p = [] := by
  intro ds
  induction ds with
  | nil => intro _; rfl
  | cons c t ih =>
    intro h
    simp only [List.dropWhile_cons, h c (List.mem_cons_self c t)]
    exact ih (fun x hx => h x (List.mem_cons_of_mem _ hx))

theorem takeWhile_append_block {p : Char → Bool} {x : Char} {r : List Char}
    (hx : p x = false) :
    ∀ {ds : List Char}, (∀ c ∈ ds, p c = true) →
      (ds ++ x :: r).takeWhile p = ds := by
  intro ds
  induction ds with
  | nil => intro _; simp [List.takeWhile_cons, hx]
  | cons c t ih =>
    intro h
    simp only [List.cons_append, List.takeWhile_cons, h c (List.mem_cons_self c t), if_true]
    rw [ih (fun y hy => h y (List.mem_cons_of_mem _ hy))]

theorem dropWhile_append_block {p : Char → Bool} {x : Char} {r : List Char}
    (hx : p x = false) :
    ∀ {ds : List Char}, (∀ c ∈ ds, p c = true) →
      (ds ++ x :: r).dropWhile p = x :: r := by
  intro ds
  induction ds with
  | nil => intro _; simp [List.dropWhile_cons, hx]
  | cons c t ih =>
    intro h
    simp only [List.cons_append, List.dropWhile_cons, h c (List.mem_cons_self c t)]
    exact ih (fun y hy => h y (List.mem_cons_of_mem _ hy))

/-- Lowercasing fixes a digit string. -/
theorem lowerL_digits {ds : List Char} (h : ∀ c ∈ ds, ∃ k, c = digChar k) :
    lowerL ds = ds := by
  induction ds with
  | nil => rfl
  | cons c t ih =>
    obtain ⟨k, rfl⟩ := h c (List.mem_cons_self c t)
    simp only [lowerL, List.map_cons, toLower_digChar]
    have := ih (fun x hx => h x (List.mem_cons_of_mem _ hx))
    simp only [lowerL] at this
    rw [this]

theorem lowerL_append (a b : List Char) :
    lowerL (a ++ b) = lowerL a ++ lowerL b := by
  simp [lowerL]

/-! ### Each extraction section only writes its own slots -/

theorem peopleTier3_budget (t : List Char) (d : UserData) :
    (peopleTier3 t d).budget = d.budget := by
  unfold peopleTier3
  (repeat' split) <;> rfl

theorem peopleTier2_budget (t : List Char) (d : UserData) :
    (peopleTier2 t d).budget = d.budget := by
  unfold peopleTier2
  (repeat' split) <;> simp [peopleTier3_budget]

theorem extract_people_budget (t : List Char) (d : UserData) :
    (extract_people t d).budget = d.budget := by
  unfold extract_people
  (repeat' split) <;> simp [peopleTier2_budget]

theorem budgetTier4_people (t : List Char) (d : UserData) :
    (budgetTier4 t d).people = d.people := by
  unfold budgetTier4
  (repeat' split) <;> rfl

theorem budgetTier3_people (t : List Char) (d : UserData) :
    (budgetTier3 t d).people = d.people := by
  unfold budgetTier3
  (repeat' split) <;> simp [budgetTier4_people]

theorem budgetTier2_people (t : List Char) (d : UserData) :
    (budgetTier2 t d).people = d.people := by
  unfold budgetTier2
  (repeat' split) <;> simp [budgetTier3_people]

theorem extract_budget_people (t : List Char) (d : UserData) :
    (extract_budget t d).people = d.people := by
  unfold extract_budget
  (repeat' split) <;> simp [budgetTier2_people]

theorem locationPatterns_people (t : List Char) (d : UserData) :
    (locationPatterns t d).people = d.people := by
  unfold locationPatterns
  (repeat' split) <;> rfl

theorem locationPatterns_budget (t : List Char) (d : UserData) :
    (locationPatterns t d).budget = d.budget := by
  unfold locationPatterns
  (repeat' split) <;> rfl

theorem extract_location_people (t : List Char) (d : UserData) :
    (extract_location t d).people = d.people := by
  simp only [extract_location]
  split_ifs <;> (try split) <;> simp [locationPatterns_people]

theorem extract_location_budget (t : List Char) (d : UserData) :
    (extract_location t d).budget = d.budget := by
  simp only [extract_location]
  split_ifs <;> (try split) <;> simp [locationPatterns_budget]

theorem extract_dietary_people (t : List Char) (d : UserData) :
    (extract_dietary t d).people = d.people := rfl

theorem extract_dietary_budget (t : List Char) (d : UserData) :
    (extract_dietary t d).budget = d.budget := rfl

theorem extract_preferences_people (t l : List Char) (d : UserData) :
    (extract_preferences t l d).people = d.people := by
  simp only [extract_preferences]
  split_ifs <;> rfl

theorem extract_preferences_budget (t l : List Char) (d : UserData) :
    (extract_preferences t l d).budget = d.budget := by
  simp only [extract_preferences]
  split_ifs <;> rfl

theorem extract_none_handling_people (t : List Char) (d : UserData) :
    (extract_none_handling t d).people = d.people := by
  simp only [extract_none_handling]
  split_ifs <;> rfl

theorem extract_none_handling_budget (t : List Char) (d : UserData) :
    (extract_none_handling t d).budget = d.budget := by
  simp only [extract_none_handling]
  split_ifs <;> rfl

/-- The people slot after a full extraction is what the people section
computed. -/
theorem extract_user_data_people (t : List Char) (d : UserData) :
    (extract_user_data t d).people = (extract_people (lowerL t) d).people := by
  unfold extract_user_data
  rw [extract_none_handling_people, extract_preferences_people,
    extract_dietary_people, extract_location_people, extract_budget_people]

/-- The budget slot after a full extraction is what the budget section
computed on the output of the people section. -/
theorem extract_user_data_budget (t : List Char) (d : UserData) :
    (extract_user_data t d).budget =
      (extract_budget (lowerL t) (extract_people (lowerL t) d)).budget := by
  unfold extract_user_data
  rw [extract_none_handling_budget, extract_preferences_budget,
    extract_dietary_budget, extract_location_budget]

/-! ### Chat-manager lemmas -/

theorem process_message_preserves_generated (s : Session) (m : List Char) :
    ((process_message s m).1).meal_plan_generated = s.meal_plan_generated := by
  simp only [process_message]
  split_ifs <;> rfl

theorem process_messages_preserves_generated (msgs : List (List Char)) :
    ∀ s : Session,
      (process_messages s msgs).meal_plan_generated = s.meal_plan_generated := by
  induction msgs with
  | nil => intro s; rfl
  | cons m t ih =>
    intro s
    unfold process_messages at ih ⊢
    rw [List.foldl_cons, ih, process_message_preserves_generated]

/-- A missing-field list that is empty means all three required slots are
truthy. -/
theorem missing_nil (d : UserData) (h : check_missing_fields d = []) :
    truthyN d.people = true ∧ truthyQ d.budget = true ∧ truthyS d.location = true := by
  unfold check_missing_fields at h
  by_cases h1 : truthyN d.people = true <;>
    by_cases h2 : truthyQ d.budget = true <;>
      by_cases h3 : truthyS d.location = true <;>
        simp [h1, h2, h3] at h ⊢

/-! ### C1: the meal-plan trigger predicate -/

/-- C1: `should_generate_meal_plan(session_id)` is true exactly when the
session state is `'processing'`, the budget, people and location slots are
all present and truthy, and no meal plan has been generated yet for the
session; and once the chat endpoint attaches a plan (setting
`meal_plan_generated`), the predicate is false after every further sequence
of processed user messages — re-confirming included — since
`process_message` never clears the flag. -/
theorem should_generate_meal_plan_correct :
    (∀ s : Session,
      should_generate_meal_plan s = true ↔
        (s.state = SState.processing ∧ truthyQ s.user_data.budget = true ∧
         truthyN s.user_data.people = true ∧ truthyS s.user_data.location = true ∧
         s.meal_plan_generated = false)) ∧
    (∀ (s : Session) (msgs : List (List Char)),
      should_generate_meal_plan (process_messages (attach_meal_plan s) msgs) = false) := by
  constructor
  · intro s
    simp only [should_generate_meal_plan, Bool.and_eq_true, beq_iff_eq,
      Bool.not_eq_true']
    tauto
  · intro s msgs
    have hg : (process_messages (attach_meal_plan s) msgs).meal_plan_generated = true := by
      rw [process_messages_preserves_generated]
      rfl
    simp [should_generate_meal_plan, hg]

/-! ### C3 and C10: the plan validator -/

/-- The extensional content of `validate_meal_plan`, shared by the C3 and
C10 theorems. -/
theorem validate_meal_plan_eq_true_iff (plan : MealPlan) (ings : List Ingredient) :
    validate_meal_plan plan ings = true ↔
      ((∀ item ∈ plan.grocery_list, ∃ ing ∈ ings,
          (hasSub (lowerL ing.name) (lowerL item.ingredient) ||
           hasSub (lowerL item.ingredient) (lowerL ing.name)) = true) ∧
       (∀ day ∈ plan.days, ∀ meal ∈ day.meals, ∀ ri ∈ meal.2.ingredients,
          ∃ ing ∈ ings,
            (hasSub (lowerL ing.name) (lowerL ri.name) ||
             hasSub (lowerL ri.name) (lowerL ing.name)) = true)) := by
  simp only [validate_meal_plan, nameMatches, Bool.and_eq_true, List.all_eq_true,
    List.any_eq_true, List.mem_map]
  constructor
  · rintro ⟨hg, hd⟩
    refine ⟨fun item hi => ?_, fun day hday meal hmeal ri hri => ?_⟩
    · obtain ⟨x, ⟨ing, hing, rfl⟩, hx⟩ := hg item hi
      exact ⟨ing, hing, hx⟩
    · obtain ⟨x, ⟨ing, hing, rfl⟩, hx⟩ := hd day hday meal hmeal ri hri
      exact ⟨ing, hing, hx⟩
  · rintro ⟨hg, hd⟩
    refine ⟨fun item hi => ?_, fun day hday meal hmeal ri hri => ?_⟩
    · obtain ⟨ing, hing, hx⟩ := hg item hi
      exact ⟨lowerL ing.name, ⟨ing, hing, rfl⟩, hx⟩
    · obtain ⟨ing, hing, hx⟩ := hd day hday meal hmeal ri hri
      exact ⟨lowerL ing.name, ⟨ing, hing, rfl⟩, hx⟩

/-- C3: `_validate_meal_plan(plan, ingredients)` returns true iff every
grocery-list entry name and every recipe ingredient name across all days
and meals matches some catalog ingredient name by case-insensitive
substring containment in either direction.  (The source conjunction
short-circuits at the first unmatched name and only reads the plan; the
embedding `validate_meal_plan` is the same pure, short-circuiting
program.) -/
theorem validate_meal_plan_iff (plan : MealPlan) (ings : List Ingredient) :
    validate_meal_plan plan ings = true ↔
      ((∀ item ∈ plan.grocery_list, ∃ ing ∈ ings,
          (hasSub (lowerL ing.name) (lowerL item.ingredient) ||
           hasSub (lowerL item.ingredient) (lowerL ing.name)) = true) ∧
       (∀ day ∈ plan.days, ∀ meal ∈ day.meals, ∀ ri ∈ meal.2.ingredients,
          ∃ ing ∈ ings,
            (hasSub (lowerL ing.name) (lowerL ri.name) ||
             hasSub (lowerL ri.name) (lowerL ing.name)) = true)) :=
  validate_meal_plan_eq_true_iff plan ings

/-- The empty pattern is a substring of everything (Python `'' in s`). -/
theorem hasSub_nil (cs : List Char) : hasSub [] cs = true := by
  cases cs with
  | nil => rfl
  | cons c t => simp [hasSub, pre]

theorem nameMatches_eq_false_iff (nm : List Char) (ings : List Ingredient) :
    nameMatches nm (ings.map (fun ing => lowerL ing.name)) = false ↔
      ∀ ing ∈ ings,
        (hasSub (lowerL ing.name) nm || hasSub nm (lowerL ing.name)) = false := by
  rw [← Bool.not_eq_true]
  simp only [nameMatches, List.any_eq_true, List.mem_map, not_exists]
  constructor
  · intro h ing hi
    have := h (lowerL ing.name)
    simp only [not_and] at this
    have h2 := this ⟨ing, hi, rfl⟩
    simpa using h2
  · rintro h x ⟨⟨ing, hi, rfl⟩, hx⟩
    rw [h ing hi] at hx
    cases hx

/-- C10: with a non-empty catalog, an empty (or absent, defaulting to `''`)
ingredient name always passes the validator's fuzzy membership test, since
the empty string is a substring of every catalog name; consequently
`_validate_meal_plan` can return false only on account of an ingredient
whose name is nonempty. -/
theorem validator_empty_name_matches (ings : List Ingredient) (h : ings ≠ []) :
    nameMatches (lowerL []) (ings.map (fun ing => lowerL ing.name)) = true ∧
    (∀ plan : MealPlan, validate_meal_plan plan ings = false →
      (∃ item ∈ plan.grocery_list, item.ingredient ≠ [] ∧
        nameMatches (lowerL item.ingredient)
          (ings.map (fun ing => lowerL ing.name)) = false) ∨
      (∃ day ∈ plan.days, ∃ meal ∈ day.meals, ∃ ri ∈ meal.2.ingredients,
        ri.name ≠ [] ∧
        nameMatches (lowerL ri.name)
          (ings.map (fun ing => lowerL ing.name)) = false)) := by
  obtain ⟨a, t, rfl⟩ : ∃ a t, ings = a :: t := by
    cases ings with
    | nil => exact absurd rfl h
    | cons a t => exact ⟨a, t, rfl⟩
  have hempty : nameMatches (lowerL [])
      ((a :: t).map (fun ing => lowerL ing.name)) = true := by
    simp [nameMatches, hasSub_nil, lowerL]
  refine ⟨hempty, fun plan hval => ?_⟩
  have hfalse : ¬ validate_meal_plan plan (a :: t) = true := by simp [hval]
  rw [validate_meal_plan_eq_true_iff] at hfalse
  rcases not_and_or.mp hfalse with hA | hB
  · left
    push_neg at hA
    obtain ⟨item, hitem, hall⟩ := hA
    have hmm : nameMatches (lowerL item.ingredient)
        ((a :: t).map (fun ing => lowerL ing.name)) = false := by
      rw [nameMatches_eq_false_iff]
      intro ing hi
      have := hall ing hi
      simpa using this
    refine ⟨item, hitem, fun hnil => ?_, hmm⟩
    have h1 := hall a (List.mem_cons_self a t)
    rw [hnil] at h1
    simp [lowerL, hasSub_nil] at h1
  · right
    push_neg at hB
    obtain ⟨day, hday, meal, hmeal, ri, hri, hall⟩ := hB
    have hmm : nameMatches (lowerL ri.name)
        ((a :: t).map (fun ing => lowerL ing.name)) = false := by
      rw [nameMatches_eq_false_iff]
      intro ing hi
      have := hall ing hi
      simpa using this
    refine ⟨day, hday, meal, hmeal, ri, hri, fun hnil => ?_, hmm⟩
    have h1 := hall a (List.mem_cons_self a t)
    rw [hnil] at h1
    simp [lowerL, hasSub_nil] at h1

/-- C10, witness: the concrete one-item catalog and an empty-named grocery
entry exercise both conjuncts of `validator_empty_name_matches`. -/
theorem validator_empty_name_matches_witness :
    ([(⟨strL "Oats", 4, strL "Grains"⟩ : Ingredient)] ≠ ([] : List Ingredient)) ∧
    nameMatches (lowerL [])
      ([(⟨strL "Oats", 4, strL "Grains"⟩ : Ingredient)].map
        (fun ing => lowerL ing.name)) = true :=
  ⟨by decide,
   (validator_empty_name_matches [⟨strL "Oats", 4, strL "Grains"⟩] (by decide)).1⟩

/-! ### C9: the single-message end-to-end extraction -/

def endToEndMsg : List Char :=
  strL "4 people in Toronto with a budget of $100, no restrictions"

/-- C9: one extraction pass over
`"4 people in Toronto with a budget of $100, no restrictions"` starting
from empty slots populates people = 4, budget = 100, location = "Toronto"
and the dietary/preference field (the restriction list is written as the
empty list), so the missing-field list is empty and a collecting-state
session reaches the confirmation state on this single message with no
re-prompt. -/
theorem end_to_end_extraction :
    (extract_user_data endToEndMsg {}).people = some 4 ∧
    (extract_user_data endToEndMsg {}).budget = some 100 ∧
    (extract_user_data endToEndMsg {}).location = some (strL "Toronto") ∧
    (extract_user_data endToEndMsg {}).dietary_restrictions = some [] ∧
    check_missing_fields (extract_user_data endToEndMsg {}) = [] ∧
    (process_message { state := SState.collecting_info } endToEndMsg).1.state =
      SState.confirm := by
  decide

/-! ### C7: the confirm-no round trip -/

/-- C7: in the Confirm state, a message whose lowercase form is one of the
negative keywords `no/n/incorrect/wrong/change` resets the session to
CollectingInfo with all slots cleared; a following message whose extraction
from the cleared slots leaves no required field missing brings the session
back to Confirm. -/
theorem confirm_no_roundtrip (s : Session) (m m2 : List Char)
    (hconfirm : s.state = SState.confirm)
    (hneg : lowerL m ∈ noWords)
    (hfull : check_missing_fields (extract_user_data m2 {}) = []) :
    ((process_message s m).1.state = SState.collecting_info ∧
     (process_message s m).1.user_data = {}) ∧
    (process_messages s [m, m2]).state = SState.confirm := by
  have hyes : lowerL m ∉ yesWords := by
    have hneg2 := hneg
    simp only [noWords, List.mem_cons, List.mem_singleton, List.not_mem_nil,
      or_false] at hneg2
    rcases hneg2 with h | h | h | h | h <;> rw [h] <;> decide
  have hstep1 : (process_message s m).1 =
      { s with state := SState.collecting_info, user_data := {} } := by
    simp [process_message, hconfirm, hyes, hneg]
  have h1 := missing_nil _ hfull
  have hstep2 : (process_message
      { s with state := SState.collecting_info, user_data := {} } m2).1.state =
        SState.confirm := by
    simp [process_message, hfull, h1.2.1]
  refine ⟨⟨?_, ?_⟩, ?_⟩
  · rw [hstep1]
  · rw [hstep1]
  · unfold process_messages
    simp only [List.foldl_cons, List.foldl_nil]
    rw [hstep1]
    exact hstep2

/-- C7, witness: a confirmed session answering `"no"` and then the full
end-to-end message lands back in the Confirm state. -/
theorem confirm_no_roundtrip_witness :
    lowerL (strL "no") ∈ noWords ∧
    check_missing_fields (extract_user_data endToEndMsg {}) = [] ∧
    (process_messages
      { state := SState.confirm, user_data := { people := some 2 } }
      [strL "no", endToEndMsg]).state = SState.confirm :=
  ⟨by decide, by decide,
   (confirm_no_roundtrip
     { state := SState.confirm, user_data := { people := some 2 } }
     (strL "no") endToEndMsg rfl (by decide) (by decide)).2⟩

/-! ### Fallback-planner lemmas shared by C4, C5 and C8 -/

def dummyDay : PlanDay := { day := [], meals := [] }

theorem scaleMeal_one (m : Meal) : scaleMeal 1 m = m := by
  cases m
  simp [scaleMeal]

theorem map_scaleDay_one : ∀ l : List PlanDay, l.map (scaleDay 1) = l := by
  intro l
  induction l with
  | nil => rfl
  | cons d t ih =>
    cases d with
    | mk day meals =>
      have hm : meals.map (fun p => (p.1, scaleMeal 1 p.2)) = meals := by
        induction meals with
        | nil => rfl
        | cons q r ihq =>
          cases q
          simp [scaleMeal_one, ihq]
      simp [scaleDay, hm, ih]

/-- The days of the fallback plan are exactly the pre-scaling weekly plan
with every meal cost multiplied by the uniform factor (`1` when the
people-scaled total stays within the budget). -/
theorem fallback_days_eq (u : UserData) (ings : List Ingredient) :
    (create_fallback_meal_plan u ings).days =
      (fallback_weekly_plan ings).map (scaleDay (fallback_scale u ings)) := by
  simp only [create_fallback_meal_plan, fallback_scale, fallback_raw_total]
  split_ifs with h1
  · rfl
  · rw [map_scaleDay_one]

theorem filteredPool_sub {opts : List Meal} {ings : List Ingredient} {m : Meal}
    (h : m ∈ filteredPool opts ings) : m ∈ opts := by
  unfold filteredPool at h
  split_ifs at h
  · exact h
  · exact List.mem_of_mem_filter h

theorem filteredPool_ne_nil {opts : List Meal} {ings : List Ingredient}
    (h : opts ≠ []) : filteredPool opts ings ≠ [] := by
  unfold filteredPool
  split_ifs with he
  · exact h
  · intro hnil
    rw [hnil] at he
    exact he rfl

theorem getD_mod_mem {l : List Meal} (h : l ≠ []) (i : Nat) :
    l.getD (i % l.length) dummyMeal ∈ l := by
  have hlt : i % l.length < l.length := Nat.mod_lt _ (List.length_pos.mpr h)
  rw [List.getD_eq_getElem l dummyMeal hlt]
  exact List.getElem_mem hlt

theorem dayNames_enum : dayNames.enum =
    [(0, strL "Monday"), (1, strL "Tuesday"), (2, strL "Wednesday"),
     (3, strL "Thursday"), (4, strL "Friday"), (5, strL "Saturday"),
     (6, strL "Sunday")] := rfl

theorem fallback_weekly_plan_day_names (ings : List Ingredient) :
    (fallback_weekly_plan ings).map PlanDay.day = dayNames := rfl

theorem fallback_weekly_plan_meals (ings : List Ingredient) :
    ∀ d ∈ fallback_weekly_plan ings, ∀ q ∈ d.meals,
      q.2 ∈ filtered_breakfast ings ∨ q.2 ∈ filtered_lunch ings ∨
        q.2 ∈ filtered_dinner ings := by
  intro d hd q hq
  simp only [fallback_weekly_plan, List.mem_map] at hd
  obtain ⟨p, hp, rfl⟩ := hd
  simp only [List.mem_cons, List.not_mem_nil, or_false] at hq
  have hbne : filtered_breakfast ings ≠ [] :=
    filteredPool_ne_nil (by simp [breakfast_options])
  have hlne : filtered_lunch ings ≠ [] :=
    filteredPool_ne_nil (by simp [lunch_options])
  have hdne : filtered_dinner ings ≠ [] :=
    filteredPool_ne_nil (by simp [dinner_options])
  rcases hq with rfl | rfl | rfl
  · exact Or.inl (getD_mod_mem hbne p.1)
  · exact Or.inr (Or.inl (getD_mod_mem hlne p.1))
  · exact Or.inr (Or.inr (getD_mod_mem hdne p.1))

theorem options_cost_nonneg :
    ∀ m ∈ breakfast_options ++ lunch_options ++ dinner_options, 0 ≤ m.cost := by
  intro m hm
  fin_cases hm <;> norm_num [breakfast_options, lunch_options, dinner_options]

/-- Every meal in any filtered pool has a nonnegative template cost. -/
theorem pool_cost_nonneg {ings : List Ingredient} {m : Meal}
    (h : m ∈ filtered_breakfast ings ∨ m ∈ filtered_lunch ings ∨
      m ∈ filtered_dinner ings) : 0 ≤ m.cost := by
  apply options_cost_nonneg
  rcases h with h | h | h
  · exact List.mem_append_left _ (List.mem_append_left _ (filteredPool_sub h))
  · exact List.mem_append_left _ (List.mem_append_right _ (filteredPool_sub h))
  · exact List.mem_append_right _ (filteredPool_sub h)

/-! ### C8: the weekly summary record -/

/-- C8, counterexample: the `weekly_summary` dict literal built by
`_create_fallback_meal_plan` (and equally the JSON shape requested by the
primary-path prompt) has exactly the keys total_cost, serves, location and
budget_utilization — there is no `currency` key fixed to `"CAD"` (the
string `"CAD"` appears only inside display texts). -/
theorem weekly_summary_no_currency :
    weekly_summary_keys =
      [strL "total_cost", strL "serves", strL "location",
       strL "budget_utilization"] ∧
    strL "currency" ∉ weekly_summary_keys := by
  exact ⟨rfl, by decide⟩

theorem fmtPercent1_ends_percent (q : ℚ) : ∃ t, fmtPercent1 q = t ++ ['%'] := by
  refine ⟨((if pyRound (q * 10) < 0 then ['-'] else []) ++
    natChars ((pyRound (q * 10)).natAbs / 10)) ++
      ['.', digChar ((pyRound (q * 10)).natAbs % 10)], ?_⟩
  simp [fmtPercent1]

/-- C8, amended: every fallback plan's weekly summary carries a total cost,
`serves` equal to the household people count, the location, and a
budget-utilization percentage string; its keys are exactly
total_cost/serves/location/budget_utilization, with no currency field. -/
theorem weekly_summary_fields (u : UserData) (ings : List Ingredient) :
    (create_fallback_meal_plan u ings).weekly_summary.serves = fallback_people u ∧
    (create_fallback_meal_plan u ings).weekly_summary.location =
      u.location.getD (strL "Unknown") ∧
    (∃ t, (create_fallback_meal_plan u ings).weekly_summary.budget_utilization =
      t ++ ['%']) ∧
    strL "currency" ∉ weekly_summary_keys := by
  refine ⟨rfl, rfl, ?_, by decide⟩
  simp only [create_fallback_meal_plan]
  exact fmtPercent1_ends_percent _

/-! ### C5: uniform budget scaling in the fallback planner -/

/-- The effective budget is either the people estimate or a positive
provided value. -/
theorem fallback_budget_cases (u : UserData) :
    fallback_budget u = 12 * (fallback_people u : ℚ) * 7 ∨
    (∃ b, u.budget = some b ∧ ¬ b ≤ 0 ∧ fallback_budget u = b) := by
  unfold fallback_budget
  cases hub : u.budget with
  | none => left; rfl
  | some b =>
    by_cases hble : b ≤ 0
    · left
      dsimp only
      rw [if_pos hble]
    · right
      refine ⟨b, rfl, hble, ?_⟩
      dsimp only
      rw [if_neg hble]

/-- Under the scaling hypothesis the effective budget is positive (a zero
estimate would force a zero people count and hence a zero raw total,
contradicting the hypothesis). -/
theorem fallback_budget_pos (u : UserData) (ings : List Ingredient)
    (h : fallback_raw_total u ings > fallback_budget u) :
    0 < fallback_budget u := by
  rcases fallback_budget_cases u with heq | ⟨b, _, hble, heq⟩
  · rcases Nat.eq_zero_or_pos (fallback_people u) with h0 | h0
    · exfalso
      unfold fallback_raw_total at h
      rw [heq, h0] at h
      push_cast at h
      simp at h
    · have h1 : (1 : ℚ) ≤ (fallback_people u : ℚ) := by exact_mod_cast h0
      rw [heq]
      nlinarith
  · rw [heq]
    exact lt_of_not_le hble

theorem pyRound_900 : pyRound ((90 : ℚ) * 10) = 900 := by
  have h1 : ((90 : ℚ) * 10) = ((900 : ℤ) : ℚ) := by norm_num
  unfold pyRound
  rw [h1, Int.floor_intCast]
  norm_num

theorem fmtPercent1_90 : fmtPercent1 90 = strL "90.0%" := by
  unfold fmtPercent1
  rw [pyRound_900]
  decide

/-- C5: whenever the people-scaled sum of the 21 template meal costs
exceeds the effective budget, the fallback planner multiplies every meal
cost by `(budget*0.9)/total_cost`, reports a budget utilization of exactly
`"90.0%"`, reports `total_cost = round(budget*0.9, 2)`, and leaves no meal
with a negative cost. -/
theorem fallback_budget_scaling (u : UserData) (ings : List Ingredient)
    (h : fallback_raw_total u ings > fallback_budget u) :
    (create_fallback_meal_plan u ings).days =
      (fallback_weekly_plan ings).map
        (scaleDay ((fallback_budget u * (9 / 10)) / fallback_raw_total u ings)) ∧
    (create_fallback_meal_plan u ings).weekly_summary.budget_utilization =
      strL "90.0%" ∧
    (create_fallback_meal_plan u ings).weekly_summary.total_cost =
      round2 (fallback_budget u * (9 / 10)) ∧
    (∀ day ∈ (create_fallback_meal_plan u ings).days, ∀ meal ∈ day.meals,
      0 ≤ meal.2.cost) := by
  have hbpos := fallback_budget_pos u ings h
  have hdays : (create_fallback_meal_plan u ings).days =
      (fallback_weekly_plan ings).map
        (scaleDay ((fallback_budget u * (9 / 10)) / fallback_raw_total u ings)) := by
    rw [fallback_days_eq]
    unfold fallback_scale
    rw [if_pos h]
  refine ⟨hdays, ?_, ?_, ?_⟩
  · have hutil : (fallback_budget u * (9 / 10)) / fallback_budget u * 100 =
        (90 : ℚ) := by
      rw [mul_comm (fallback_budget u) ((9 : ℚ) / 10),
        mul_div_assoc, div_self (ne_of_gt hbpos)]
      norm_num
    simp only [create_fallback_meal_plan, fallback_raw_total] at h ⊢
    rw [if_pos h, if_pos hbpos, hutil, fmtPercent1_90]
  · simp only [create_fallback_meal_plan, fallback_raw_total] at h ⊢
    rw [if_pos h]
  · intro day hday meal hmeal
    rw [hdays] at hday
    obtain ⟨w, hw, rfl⟩ := List.mem_map.mp hday
    simp only [scaleDay, List.mem_map] at hmeal
    obtain ⟨q, hq, rfl⟩ := hmeal
    have hmem := fallback_weekly_plan_meals ings w hw q hq
    have hc0 : 0 ≤ q.2.cost := pool_cost_nonneg hmem
    have hf0 : 0 ≤ (fallback_budget u * (9 / 10)) / fallback_raw_total u ings := by
      apply div_nonneg
      · nlinarith
      · nlinarith
    exact mul_nonneg hc0 hf0

/-! ### Concrete planner inputs for the C4/C5 witnesses -/

/-- A one-item catalog matching no template ingredient, so every pool falls
back to its unfiltered options. -/
def c4Catalog : List Ingredient := [⟨strL "x", 1, strL "misc"⟩]

/-- Slots forcing the budget rescaling: 20 people on a $10 weekly budget. -/
def c4User : UserData := { people := some 20, budget := some 10 }

theorem filtered_breakfast_c4 : filtered_breakfast c4Catalog = breakfast_options := rfl

theorem filtered_lunch_c4 : filtered_lunch c4Catalog = lunch_options := rfl

theorem filtered_dinner_c4 : filtered_dinner c4Catalog = dinner_options := rfl

theorem weekly_plan_c4 : fallback_weekly_plan c4Catalog =
    [⟨strL "Monday", [(strL "breakfast", breakfast_options.getD 0 dummyMeal),
                      (strL "lunch", lunch_options.getD 0 dummyMeal),
                      (strL "dinner", dinner_options.getD 0 dummyMeal)]⟩,
     ⟨strL "Tuesday", [(strL "breakfast", breakfast_options.getD 1 dummyMeal),
                      (strL "lunch", lunch_options.getD 1 dummyMeal),
                      (strL "dinner", dinner_options.getD 1 dummyMeal)]⟩,
     ⟨strL "Wednesday", [(strL "breakfast", breakfast_options.getD 2 dummyMeal),
                      (strL "lunch", lunch_options.getD 2 dummyMeal),
                      (strL "dinner", dinner_options.getD 2 dummyMeal)]⟩,
     ⟨strL "Thursday", [(strL "breakfast", breakfast_options.getD 0 dummyMeal),
                      (strL "lunch", lunch_options.getD 0 dummyMeal),
                      (strL "dinner", dinner_options.getD 0 dummyMeal)]⟩,
     ⟨strL "Friday", [(strL "breakfast", breakfast_options.getD 1 dummyMeal),
                      (strL "lunch", lunch_options.getD 1 dummyMeal),
                      (strL "dinner", dinner_options.getD 1 dummyMeal)]⟩,
     ⟨strL "Saturday", [(strL "breakfast", breakfast_options.getD 2 dummyMeal),
                      (strL "lunch", lunch_options.getD 2 dummyMeal),
                      (strL "dinner", dinner_options.getD 2 dummyMeal)]⟩,
     ⟨strL "Sunday", [(strL "breakfast", breakfast_options.getD 0 dummyMeal),
                      (strL "lunch", lunch_options.getD 0 dummyMeal),
                      (strL "dinner", dinner_options.getD 0 dummyMeal)]⟩] := rfl

/-- The unscaled weekly template cost: $81.25 per person. -/
theorem planDaysCost_c4 : planDaysCost (fallback_weekly_plan c4Catalog) = 325 / 4 := by
  rw [weekly_plan_c4]
  norm_num [planDaysCost, breakfast_options, lunch_options, dinner_options]

theorem raw_total_c4 : fallback_raw_total c4User c4Catalog = 1625 := by
  rw [fallback_raw_total, planDaysCost_c4]
  norm_num [fallback_people, c4User]

theorem budget_c4 : fallback_budget c4User = 10 := by
  norm_num [fallback_budget, c4User]

theorem raw_gt_budget_c4 : fallback_raw_total c4User c4Catalog > fallback_budget c4User := by
  rw [raw_total_c4, budget_c4]
  norm_num

/-- C5, witness: at 20 people, a $10 budget and the one-item catalog the
scaling fires and the summary reports exactly 90% utilization. -/
theorem fallback_budget_scaling_witness :
    fallback_raw_total c4User c4Catalog > fallback_budget c4User ∧
    (create_fallback_meal_plan c4User c4Catalog).weekly_summary.budget_utilization =
      strL "90.0%" :=
  ⟨raw_gt_budget_c4,
   (fallback_budget_scaling c4User c4Catalog raw_gt_budget_c4).2.1⟩

/-! ### C4: fallback plan structure and pool selection -/

/-- C4, amended: for every slot record and non-empty catalog the fallback
plan has exactly the seven days Monday through Sunday in that fixed order
(no duplicates), each with exactly breakfast, lunch and dinner meals; the
filtered pools are never empty (the unfiltered 3-option pool replaces an
emptied one); and day `i`'s meal for each slot is the pool element
`pool[i % len(pool)]` with its cost multiplied by the uniform budget factor
(which is 1 exactly when no budget rescaling occurs, cf. the scaling of the
C5 theorem). -/
theorem fallback_plan_structure (u : UserData) (ings : List Ingredient)
    (_hne : ings ≠ []) :
    ((create_fallback_meal_plan u ings).days.map PlanDay.day = dayNames ∧
     (create_fallback_meal_plan u ings).days.length = 7 ∧ dayNames.Nodup) ∧
    (∀ day ∈ (create_fallback_meal_plan u ings).days,
      day.meals.map Prod.fst = [strL "breakfast", strL "lunch", strL "dinner"]) ∧
    (filtered_breakfast ings ≠ [] ∧ filtered_lunch ings ≠ [] ∧
     filtered_dinner ings ≠ []) ∧
    (∀ i, i < 7 →
      ((create_fallback_meal_plan u ings).days.getD i dummyDay).meals =
        [(strL "breakfast", scaleMeal (fallback_scale u ings)
            ((filtered_breakfast ings).getD
              (i % (filtered_breakfast ings).length) dummyMeal)),
         (strL "lunch", scaleMeal (fallback_scale u ings)
            ((filtered_lunch ings).getD
              (i % (filtered_lunch ings).length) dummyMeal)),
         (strL "dinner", scaleMeal (fallback_scale u ings)
            ((filtered_dinner ings).getD
              (i % (filtered_dinner ings).length) dummyMeal))]) := by
  have hdaynames : (create_fallback_meal_plan u ings).days.map PlanDay.day = dayNames := by
    rw [fallback_days_eq, List.map_map]
    have hcomp : PlanDay.day ∘ scaleDay (fallback_scale u ings) = PlanDay.day :=
      funext fun p => rfl
    rw [hcomp, fallback_weekly_plan_day_names]
  refine ⟨⟨hdaynames, ?_, by decide⟩, ?_, ?_, ?_⟩
  · have := congrArg List.length hdaynames
    simpa using this
  · intro day hday
    rw [fallback_days_eq] at hday
    obtain ⟨w, hw, rfl⟩ := List.mem_map.mp hday
    simp only [fallback_weekly_plan, List.mem_map] at hw
    obtain ⟨p, hp, rfl⟩ := hw
    rfl
  · exact ⟨filteredPool_ne_nil (by simp [breakfast_options]),
      filteredPool_ne_nil (by simp [lunch_options]),
      filteredPool_ne_nil (by simp [dinner_options])⟩
  · intro i hi
    rw [fallback_days_eq]
    interval_cases i <;> rfl

/-- C4, counterexample: at the concrete input of the C5 witness the budget
rescaling changes Monday's breakfast cost, so the returned meal is not the
pool template `pool[0 % len(pool)]` itself, refuting the claim as stated
(the day/meal structure survives; only the cost field is rescaled). -/
theorem fallback_meal_not_pool_template :
    c4Catalog ≠ [] ∧
    ((create_fallback_meal_plan c4User c4Catalog).days.headD dummyDay).meals.headD
        (strL "breakfast", dummyMeal) ≠
      (strL "breakfast",
        (filtered_breakfast c4Catalog).getD
          (0 % (filtered_breakfast c4Catalog).length) dummyMeal) := by
  refine ⟨by decide, ?_⟩
  have hscale : fallback_scale c4User c4Catalog = 9 / 1625 := by
    unfold fallback_scale
    rw [if_pos raw_gt_budget_c4, raw_total_c4, budget_c4]
    norm_num
  rw [fallback_days_eq, weekly_plan_c4, filtered_breakfast_c4]
  simp only [List.map_cons, List.headD_cons, scaleDay, List.headD_cons]
  rw [hscale]
  intro heq
  have hc := congrArg (fun p => p.2.cost) heq
  simp only [scaleMeal] at hc
  norm_num [breakfast_options] at hc

/-- C4, witness: the non-empty one-item catalog instantiates the amended
structure theorem; Monday is the plan's first day. -/
theorem fallback_plan_structure_witness :
    c4Catalog ≠ [] ∧
    (create_fallback_meal_plan c4User c4Catalog).days.map PlanDay.day = dayNames :=
  ⟨by decide, (fallback_plan_structure c4User c4Catalog (by decide)).1.1⟩

/-! ### C6: household-size extraction on the canonical message -/

theorem scanL_cons_some {α} (f : List Char → Option α) (c : Char) (cs : List Char)
    (v : α) (h : f (c :: cs) = some v) : scanL f (c :: cs) = some v := by
  simp [scanL, h]

/-- If the matcher fails on every suffix that starts inside an all-digit
block, the scan skips the block. -/
theorem scanL_skip_digits {α} (f : List Char → Option α)
    (hf : ∀ c t, isDig c = true → f (c :: t) = none) :
    ∀ (ds rest : List Char), (∀ c ∈ ds, isDig c = true) →
      scanL f (ds ++ rest) = scanL f rest := by
  intro ds
  induction ds with
  | nil => intro rest _; rfl
  | cons c t ih =>
    intro rest h
    rw [List.cons_append]
    have hc : isDig c = true := h c (List.mem_cons_self c t)
    simp only [scanL, hf c _ hc]
    exact ih rest (fun x hx => h x (List.mem_cons_of_mem c hx))

/-- The digit-then-keyword matcher on an all-digit block followed by a
non-digit: captures exactly the block when the keyword test succeeds after
the whitespace. -/
theorem tryNumKwAt_block (kws : List (List Char)) (ds : List Char) (x : Char)
    (r : List Char) (hne : ds ≠ []) (hdig : ∀ c ∈ ds, isDig c = true)
    (hx : isDig x = false)
    (hkw : kws.any (fun k => pre k ((x :: r).dropWhile isWs)) = true) :
    tryNumKwAt kws (ds ++ x :: r) = some (digitsVal ds) := by
  unfold tryNumKwAt
  rw [takeWhile_append_block hx hdig, dropWhile_append_block hx hdig]
  simp [List.isEmpty_iff, hne, hkw]

theorem beq_eq_false_of_isDig {x c : Char} (hx : isDig x = false)
    (hc : isDig c = true) : (x == c) = false := by
  cases h : x == c
  · rfl
  · rw [eq_of_beq h, hc] at hx
    cases hx

/-- Pattern 2 of the people extraction fails at any position starting with
a digit: its keyword alternatives all begin with letters. -/
theorem tryPeople2At_digit : ∀ (c : Char) (t : List Char), isDig c = true →
    tryPeople2At (c :: t) = none := by
  intro c t h
  have hh : pre (strL "household") (c :: t) = false := by
    show (('h' == c) && pre (strL "ousehold") t) = false
    rw [beq_eq_false_of_isDig (by decide) h]
    rfl
  have hf1 : pre (strL "family") (c :: t) = false := by
    show (('f' == c) && pre (strL "amily") t) = false
    rw [beq_eq_false_of_isDig (by decide) h]
    rfl
  have hf2 : pre (strL "feeding") (c :: t) = false := by
    show (('f' == c) && pre (strL "eeding") t) = false
    rw [beq_eq_false_of_isDig (by decide) h]
    rfl
  have hs : pre (strL "serving") (c :: t) = false := by
    show (('s' == c) && pre (strL "erving") t) = false
    rw [beq_eq_false_of_isDig (by decide) h]
    rfl
  unfold tryPeople2At
  rw [show peopleKw2 =
    [strL "household", strL "family", strL "feeding", strL "serving"] from rfl]
  simp [List.find?, hh, hf1, hf2, hs]

theorem dropWhile_isWs_digits {ds : List Char}
    (hdig : ∀ c ∈ ds, isDig c = true) : ds.dropWhile isWs = ds := by
  cases ds with
  | nil => rfl
  | cons c t =>
    have hc : isDig c = true := hdig c (List.mem_cons_self c t)
    have hw : isWs c = false := by
      cases hbe : isWs c
      · rfl
      · exfalso
        have : c = ' ' ∨ c = '\t' ∨ c = '\n' ∨ c = '\r' ∨ c = '\x0b' ∨ c = '\x0c' := by
          simp only [isWs, Bool.or_eq_true, beq_iff_eq] at hbe
          tauto
        rcases this with rfl | rfl | rfl | rfl | rfl | rfl <;> cases hc
    simp [List.dropWhile_cons, hw]

/-- The canonical C6 message keeps its form under lowercasing. -/
theorem lowerL_people_msg (n : Nat) :
    lowerL (natChars n ++ strL " people") = natChars n ++ strL " people" := by
  rw [lowerL_append, lowerL_digits (natChars_shape n)]
  congr 1

theorem scanPeople1_msg (n : Nat) :
    scanPeople1 (natChars n ++ strL " people") = some n := by
  have h1 : tryNumKwAt peopleKw1 (natChars n ++ strL " people") =
      some (digitsVal (natChars n)) := by
    rw [show strL " people" = ' ' :: strL "people" from rfl]
    exact tryNumKwAt_block _ _ _ _ (natChars_ne_nil n) (natChars_isDig n)
      (by decide) (by decide)
  rw [digitsVal_natChars] at h1
  unfold scanPeople1
  cases hnc : natChars n with
  | nil => exact absurd hnc (natChars_ne_nil n)
  | cons c cs =>
    rw [hnc] at h1
    exact scanL_cons_some _ _ _ _ h1

theorem scanPeople3_msg (n : Nat) :
    scanPeople3 (natChars n ++ strL " people") = some n := by
  have h1 : tryNumKwAt peopleKw3 (natChars n ++ strL " people") =
      some (digitsVal (natChars n)) := by
    rw [show strL " people" = ' ' :: strL "people" from rfl]
    exact tryNumKwAt_block _ _ _ _ (natChars_ne_nil n) (natChars_isDig n)
      (by decide) (by decide)
  rw [digitsVal_natChars] at h1
  unfold scanPeople3
  cases hnc : natChars n with
  | nil => exact absurd hnc (natChars_ne_nil n)
  | cons c cs =>
    rw [hnc] at h1
    exact scanL_cons_some _ _ _ _ h1

theorem scanPeople2_msg (n : Nat) :
    scanPeople2 (natChars n ++ strL " people") = none := by
  unfold scanPeople2
  rw [scanL_skip_digits tryPeople2At tryPeople2At_digit _ _ (natChars_isDig n)]
  decide

theorem extract_people_msg (n : Nat) (d : UserData) :
    extract_people (natChars n ++ strL " people") d =
      if 1 ≤ n ∧ n ≤ 20 then { d with people := some n } else d := by
  unfold extract_people peopleTier2 peopleTier3
  rw [scanPeople1_msg, scanPeople2_msg, scanPeople3_msg]
  by_cases h : 1 ≤ n ∧ n ≤ 20
  · simp [h]
  · simp [h]

/-- The C6 correspondence in if-then-else form, shared by the two halves
of the claim theorem. -/
theorem people_slot_by_range (n : Nat) (d : UserData) :
    (extract_user_data (natChars n ++ strL " people") d).people =
      if 1 ≤ n ∧ n ≤ 20 then some n else d.people := by
  rw [extract_user_data_people, lowerL_people_msg, extract_people_msg]
  by_cases h : 1 ≤ n ∧ n ≤ 20
  · simp [h]
  · simp [h]

/-- C6: for every n in [1,20] the extractor run on the message
`"{n} people"` sets the people slot to n; for every n outside [1,20] the
same message leaves the people slot at its prior value (the out-of-range
first match does not stop the pattern loop, but the remaining patterns
capture the same out-of-range number or nothing). -/
theorem people_slot_extraction :
    (∀ (n : Nat) (d : UserData), 1 ≤ n → n ≤ 20 →
      (extract_user_data (natChars n ++ strL " people") d).people = some n) ∧
    (∀ (n : Nat) (d : UserData), n < 1 ∨ 20 < n →
      (extract_user_data (natChars n ++ strL " people") d).people = d.people) := by
  constructor
  · intro n d h1 h2
    rw [people_slot_by_range, if_pos ⟨h1, h2⟩]
  · intro n d h
    rw [people_slot_by_range, if_neg (by omega)]

/-- C6, witness: n = 7 sets the slot; n = 25 leaves it unchanged. -/
theorem people_slot_extraction_witness :
    (1 ≤ 7 ∧ 7 ≤ 20 ∧
      (extract_user_data (natChars 7 ++ strL " people") {}).people = some 7) ∧
    (20 < 25 ∧
      (extract_user_data (natChars 25 ++ strL " people")
        { people := some 3 }).people = ({ people := some 3 } : UserData).people) :=
  ⟨⟨by decide, by decide,
    people_slot_extraction.1 7 {} (by decide) (by decide)⟩,
   ⟨by decide,
    people_slot_extraction.2 25 { people := some 3 } (Or.inr (by decide))⟩⟩

/-! ### C2: budget extraction -/

/-- The float value of a captured integer number of dollars. -/
theorem toRat_whole (n : Nat) : (PyNum.mk (n * 100)).toRat = (n : ℚ) := by
  unfold PyNum.toRat
  rw [Rat.mkRat_eq_div]
  push_cast
  rw [mul_div_assoc]
  norm_num

theorem budgetInRange_whole (n : Nat) (h1 : 10 ≤ n) (h2 : n ≤ 10000) :
    budgetInRange (PyNum.mk (n * 100)) = true := by
  unfold budgetInRange
  rw [toRat_whole]
  rw [Bool.and_eq_true, decide_eq_true_eq, decide_eq_true_eq]
  constructor
  · exact_mod_cast h1
  · exact_mod_cast h2

/-- `\$?\s*(\d+...)` at a dollar sign directly followed by the digit block
ending the text: captures the whole block. -/
theorem b1NumAt_dollar_digits (ds : List Char) (hne : ds ≠ [])
    (hdig : ∀ c ∈ ds, isDig c = true) :
    b1NumAt ('$' :: ds) = some ⟨digitsVal ds * 100⟩ := by
  have hnd : b1NoDollar ds = some ⟨digitsVal ds * 100⟩ := by
    unfold b1NoDollar
    rw [dropWhile_isWs_digits hdig]
    unfold numCapture
    rw [takeWhile_all hdig, dropWhile_all hdig]
    simp [List.isEmpty_iff, hne]
  unfold b1NumAt
  show (match b1NoDollar ds with
    | some v => some v
    | none => b1NoDollar ('$' :: ds)) = some ⟨digitsVal ds * 100⟩
  rw [hnd]

theorem lazyFind_step {α} (g : List Char → Option α) (c : Char) (cs : List Char)
    (hg : g (c :: cs) = none) (hc : (c == '\n') = false) :
    lazyFind g (c :: cs) = lazyFind g cs := by
  simp [lazyFind, hg, hc]

theorem lazyFind_hit {α} (g : List Char → Option α) (c : Char) (cs : List Char)
    (v : α) (hg : g (c :: cs) = some v) : lazyFind g (c :: cs) = some v := by
  simp [lazyFind, hg]

/-- Scanning `" is $"` lazily from just after the `budget` literal reaches
the dollar sign and captures the digit block. -/
theorem lazyFind_is_dollar (ds : List Char) (hne : ds ≠ [])
    (hdig : ∀ c ∈ ds, isDig c = true) :
    lazyFind b1NumAt (strL " is $" ++ ds) = some ⟨digitsVal ds * 100⟩ := by
  rw [show strL " is $" ++ ds = ' ' :: 'i' :: 's' :: ' ' :: '$' :: ds from rfl]
  have e1 : lazyFind b1NumAt (' ' :: 'i' :: 's' :: ' ' :: '$' :: ds) =
      lazyFind b1NumAt ('i' :: 's' :: ' ' :: '$' :: ds) :=
    lazyFind_step _ _ _ rfl rfl
  have e2 : lazyFind b1NumAt ('i' :: 's' :: ' ' :: '$' :: ds) =
      lazyFind b1NumAt ('s' :: ' ' :: '$' :: ds) :=
    lazyFind_step _ _ _ rfl rfl
  have e3 : lazyFind b1NumAt ('s' :: ' ' :: '$' :: ds) =
      lazyFind b1NumAt (' ' :: '$' :: ds) :=
    lazyFind_step _ _ _ rfl rfl
  have e4 : lazyFind b1NumAt (' ' :: '$' :: ds) =
      lazyFind b1NumAt ('$' :: ds) :=
    lazyFind_step _ _ _ rfl rfl
  rw [e1, e2, e3, e4]
  exact lazyFind_hit _ _ _ _ (b1NumAt_dollar_digits ds hne hdig)

theorem scanBudget1_msg (X : Nat) :
    scanBudget1 (strL "budget is $" ++ natChars X) = some ⟨digitsVal (natChars X) * 100⟩ := by
  have h0 : tryBudget1At (strL "budget is $" ++ natChars X) =
      some ⟨digitsVal (natChars X) * 100⟩ := by
    unfold tryBudget1At
    rw [if_pos (by rfl)]
    rw [show (strL "budget is $" ++ natChars X).drop 6 = strL " is $" ++ natChars X from rfl]
    exact lazyFind_is_dollar _ (natChars_ne_nil X) (natChars_isDig X)
  unfold scanBudget1
  rw [show strL "budget is $" ++ natChars X =
    'b' :: (strL "udget is $" ++ natChars X) from rfl] at h0 ⊢
  exact scanL_cons_some _ _ _ _ h0

/-- The lowered C2 message is itself. -/
theorem lowerL_budget_msg (X : Nat) :
    lowerL (strL "budget is $" ++ natChars X) = strL "budget is $" ++ natChars X := by
  rw [lowerL_append, lowerL_digits (natChars_shape X)]
  congr 1

/-! The no-context direction: each budget tier needs a context word. -/

theorem scanBudget1_none (cs : List Char)
    (h : hasSub (strL "budget") cs = false) : scanBudget1 cs = none := by
  unfold scanBudget1
  induction cs with
  | nil => rfl
  | cons c t ih =>
    rw [show hasSub (strL "budget") (c :: t) =
      (pre (strL "budget") (c :: t) || hasSub (strL "budget") t) from rfl] at h
    rcases Bool.or_eq_false_iff.mp h with ⟨h1, h2⟩
    have hf : tryBudget1At (c :: t) = none := by
      unfold tryBudget1At
      rw [h1]
      rfl
    simp only [scanL, hf]
    exact ih h2

theorem scanBudget2_none (cs : List Char)
    (h1 : hasSub (strL "budget") cs = false)
    (h2 : hasSub (strL "spend") cs = false)
    (h3 : hasSub (strL "afford") cs = false) : scanBudget2 cs = none := by
  unfold scanBudget2
  induction cs with
  | nil => rfl
  | cons c t ih =>
    rw [show hasSub (strL "budget") (c :: t) =
      (pre (strL "budget") (c :: t) || hasSub (strL "budget") t) from rfl] at h1
    rw [show hasSub (strL "spend") (c :: t) =
      (pre (strL "spend") (c :: t) || hasSub (strL "spend") t) from rfl] at h2
    rw [show hasSub (strL "afford") (c :: t) =
      (pre (strL "afford") (c :: t) || hasSub (strL "afford") t) from rfl] at h3
    rcases Bool.or_eq_false_iff.mp h1 with ⟨h1a, h1b⟩
    rcases Bool.or_eq_false_iff.mp h2 with ⟨h2a, h2b⟩
    rcases Bool.or_eq_false_iff.mp h3 with ⟨h3a, h3b⟩
    have hf : tryBudget2At (c :: t) = none := by
      unfold tryBudget2At
      rw [show budgetKw2 = [strL "budget", strL "spend", strL "afford"] from rfl]
      simp [List.find?, h1a, h2a, h3a]
    simp only [scanL, hf]
    exact ih h1b h2b h3b

/-- The pattern-3 window check as the source performs it: every context
word must miss the concatenation of the before/after windows of the first
dollar match (vacuously true when there is no dollar match). -/
def b3WindowOK (lower : List Char) : Bool :=
  match scanBudget3 lower with
  | some (s, _, e) =>
    budget_context_words.all (fun w => !hasSub w (b3Context lower s e))
  | none => true

/-- With no context word in the text and none across the pattern-3 window
seam, no budget tier fires. -/
theorem extract_budget_no_context (lower : List Char) (d : UserData)
    (hctx : ∀ w ∈ budget_context_words, hasSub w lower = false)
    (hwin : b3WindowOK lower = true) :
    extract_budget lower d = d := by
  have hbud : hasSub (strL "budget") lower = false :=
    hctx _ (by decide)
  have hspend : hasSub (strL "spend") lower = false :=
    hctx _ (by decide)
  have hafford : hasSub (strL "afford") lower = false :=
    hctx _ (by decide)
  have h4 : budgetTier4 lower d = d := by
    unfold budgetTier4
    rw [hbud]
    rfl
  have h3 : budgetTier3 lower d = d := by
    unfold budgetTier3
    unfold b3WindowOK at hwin
    cases hb3 : scanBudget3 lower with
    | none => exact h4
    | some sve =>
      obtain ⟨s, v, e⟩ := sve
      rw [hb3] at hwin
      dsimp only at hwin ⊢
      have hany : budget_context_words.any
          (fun w => hasSub w (b3Context lower s e)) = false := by
        rw [← Bool.not_eq_true]
        simp only [List.any_eq_true, not_exists]
        intro w
        simp only [not_and]
        intro hw
        simp only [List.all_eq_true] at hwin
        have := hwin w hw
        simp only [Bool.not_eq_true'] at this
        simp [this]
      rw [hany]
      simp [h4]
  have h2 : budgetTier2 lower d = d := by
    unfold budgetTier2
    rw [scanBudget2_none lower hbud hspend hafford]
    exact h3
  unfold extract_budget
  rw [scanBudget1_none lower hbud]
  exact h2

/-- C2, amended: (1) for every X in [10,10000] the message
`"budget is $X"` sets the budget slot to X; (2) a message with no
budget-context word (budget/spend/afford/cost/weekly/week) anywhere in the
text leaves the budget slot unchanged, *provided additionally* that no
context word appears in the concatenation of the 20-character windows on
either side of the first dollar match — the source concatenates the two
windows directly, so an occurrence straddling the seam (cf. the
counterexample) also counts as context. -/
theorem budget_extraction :
    (∀ (X : Nat) (d : UserData), 10 ≤ X → X ≤ 10000 →
      (extract_user_data (strL "budget is $" ++ natChars X) d).budget =
        some (X : ℚ)) ∧
    (∀ (msg : List Char) (d : UserData),
      (∀ w ∈ budget_context_words, hasSub w (lowerL msg) = false) →
      b3WindowOK (lowerL msg) = true →
      (extract_user_data msg d).budget = d.budget) := by
  constructor
  · intro X d h1 h2
    rw [extract_user_data_budget, lowerL_budget_msg]
    unfold extract_budget
    rw [scanBudget1_msg, digitsVal_natChars]
    dsimp only
    rw [if_pos (budgetInRange_whole X h1 h2)]
    rw [toRat_whole]
  · intro msg d hctx hwin
    rw [extract_user_data_budget, extract_budget_no_context _ _ hctx hwin,
      extract_people_budget]

/-- C2, counterexample (to the claim as stated): the message `"we$15ek"`
contains a bare `$15` and no budget-context word anywhere in the text, yet
the extractor sets budget = 15 — the 20-character windows `"we"` and
`"ek"` around the dollar match are concatenated to `"week"`, forming a
context word across the seam. -/
theorem bare_dollar_sets_budget :
    (∀ w ∈ budget_context_words, hasSub w (lowerL (strL "we$15ek")) = false) ∧
    (extract_user_data (strL "we$15ek") {}).budget = some 15 := by
  constructor
  · decide
  · decide

/-- C2, witness: X = 100 for the message form, and `"hello Bob"` for the
no-context direction. -/
theorem budget_extraction_witness :
    ((10 : Nat) ≤ 100 ∧ (100 : Nat) ≤ 10000 ∧
      (extract_user_data (strL "budget is $" ++ natChars 100) {}).budget =
        some ((100 : Nat) : ℚ)) ∧
    ((∀ w ∈ budget_context_words, hasSub w (lowerL (strL "hello Bob")) = false) ∧
      b3WindowOK (lowerL (strL "hello Bob")) = true ∧
      (extract_user_data (strL "hello Bob") { location := some (strL "Oslo") }).budget =
        ({ location := some (strL "Oslo") } : UserData).budget) :=
  ⟨⟨by decide, by decide, budget_extraction.1 100 {} (by decide) (by decide)⟩,
   ⟨by decide, by decide,
    budget_extraction.2 (strL "hello Bob") { location := some (strL "Oslo") }
      (by decide) (by decide)⟩⟩

end Nutrition
